import Mathlib

/-!
# Verification of the wireguard-api client registry

Shallow embedding of the Go server in `main.go` (gin variant): the client
registry and config synchronization engine.  All text is modelled as
`List Char` (abbreviated `Str`); the two stores are the server configuration
file (a `Str`) and the client bundle directory (an association list from file
name to file content).  External effects (WireGuard key generation, the
`wg-quick strip` / `wg syncconf` daemon sync) are modelled as oracle
parameters: key material is passed in as strings, the sync outcome as an
`Except` value, exactly as the Go code consumes them.

Go `regexp` (RE2) semantics relevant here, reflected in the embedding:
* without the `m` flag, `$` matches only at end of text (like `\z`); hence
  `### Client <name>$` used by `clientExists` tests whether the config text
  *ends with* the marker;
* with `(?ms)`, `^### Client <name>$.*?^$` matches from the marker (which,
  as `QuoteMeta` keeps newlines literal, may span several lines when the
  name contains newlines), through the non-greedy minimal span, up to the
  next empty line (a position after a newline that is again at a line end);
  the empty line itself is zero-width matched and not consumed.  On the line
  decomposition of the text this is: a consecutive run of lines equal to the
  marker's line decomposition, followed by all lines up to but excluding the
  first empty line at or after the run's last line.  `ReplaceAll` removes
  every such non-overlapping match left to right.
-/

set_option maxRecDepth 4096
set_option autoImplicit false

deriving instance DecidableEq for Except

abbrev Str := List Char

/-- Server parameters loaded from the params file (`WGParams` in the source). -/
structure WGParams where
  ServerPubIP : Str
  ServerPubNIC : Str
  ServerWGNIC : Str
  ServerWGIPv4 : Str
  ServerWGIPv6 : Str
  ServerPort : Str
  ServerPrivKey : Str
  ServerPubKey : Str
  ClientDNS1 : Str
  ClientDNS2 : Str
  AllowedIPs : Str
  deriving DecidableEq, Repr

/-- The two on-disk stores the registry mutates: the server configuration file
content and the client bundle directory (file name to file content). -/
structure FS where
  config : Str
  clients : List (Str × Str)
  deriving DecidableEq, Repr

/-- Look up a key in an association list (a directory read, or a Go map
read).  First match wins; writes keep keys unique. -/
def lookupFile {α : Type} (k : Str) : List (Str × α) → Option α
  | [] => none
  | (k₁, v) :: m => if k₁ = k then some v else lookupFile k m

/-- Remove a key (`os.Remove`); removing an absent key is a no-op here,
matching the guarded `fileExists` check in the source. -/
def removeFile {α : Type} (k : Str) : List (Str × α) → List (Str × α)
  | [] => []
  | (k₁, v) :: m => if k₁ = k then removeFile k m else (k₁, v) :: removeFile k m

/-- Write under a key: replaces any existing entry with the same key
(a file write, or a Go map write). -/
def setFile {α : Type} (k : Str) (v : α) (m : List (Str × α)) : List (Str × α) :=
  (k, v) :: removeFile k m

/-- Split a character list at every occurrence of `sep`
(Go `strings.Split` with a one-character separator).  Never returns `[]`. -/
def splitOnChar (sep : Char) : Str → List Str
  | [] => [[]]
  | c :: cs =>
    match splitOnChar sep cs with
    | [] => [[c]]
    | h :: t => if c = sep then [] :: h :: t else (c :: h) :: t

/-- Join with a separator character: left inverse of `splitOnChar`. -/
def joinChar (sep : Char) : List Str → Str
  | [] => []
  | [l] => l
  | l :: ls => l ++ sep :: joinChar sep ls

/-- Split at every occurrence of the two-character separator `::`
(Go `strings.Split(s, "::")`, leftmost non-overlapping). -/
def splitDC : Str → List Str
  | ':' :: ':' :: cs => [] :: splitDC cs
  | c :: cs =>
    match splitDC cs with
    | [] => [[c]]
    | h :: t => (c :: h) :: t
  | [] => [[]]

/-- `stripPrefixChars p l = some r` iff `l = p ++ r`. -/
def stripPrefixChars : Str → Str → Option Str
  | [], cs => some cs
  | _ :: _, [] => none
  | p :: ps, c :: cs => if c = p then stripPrefixChars ps cs else none

/-- `stripSuffixChars s l = some r` iff `l = r ++ s`. -/
def stripSuffixChars (s l : Str) : Option Str :=
  (stripPrefixChars s.reverse l.reverse).map List.reverse

/-- Decimal value of a digit run (`fmt.Sscanf` with the `d` verb on the
digits captured by the pattern). -/
def parseDec (ds : Str) : Nat :=
  ds.foldl (fun n c => n * 10 + (c.toNat - '0'.toNat)) 0

/-- Hex digit test, as in the character class of the IPv6 pattern. -/
def isHexDigit (c : Char) : Bool :=
  c.isDigit || ('a' ≤ c && c ≤ 'f') || ('A' ≤ c && c ≤ 'F')

/-- Value of one hex digit. -/
def hexVal (c : Char) : Nat :=
  if c.isDigit then c.toNat - '0'.toNat
  else if 'a' ≤ c && c ≤ 'f' then c.toNat - 'a'.toNat + 10
  else c.toNat - 'A'.toNat + 10

/-- Hexadecimal value of a hex digit run (`fmt.Sscanf` with the `x` verb). -/
def parseHex (ds : Str) : Nat :=
  ds.foldl (fun n c => n * 16 + hexVal c) 0

/-- Decimal rendering of a number (`fmt.Sprintf` with the `d` verb). -/
def natChars (n : Nat) : Str := (toString n).data

/-- Match the IPv4 base pattern at the head of `cs`.  The Go code compiles
`baseIP + "\.(\d+)"` without quoting `baseIP`, so every `.` inside the base
is a regex wildcard matching any character except newline; the remaining base
characters (digits, for an IP base) match literally. -/
def matchWild : Str → Str → Option Str
  | [], cs => some cs
  | _ :: _, [] => none
  | p :: ps, c :: cs =>
    if p = '.' then (if c = '\n' then none else matchWild ps cs)
    else if c = p then matchWild ps cs else none

/-- One scan step of `FindAllStringSubmatch` for the IPv4 pattern
`<base>\.(\d+)`: leftmost matches, non-overlapping, with a greedy maximal
digit run; collects the decimal values of the captured octets.  Fuel-based so
that the kernel can evaluate it; each step consumes at least one character,
so `fuel = cs.length` always suffices. -/
def scanUsed4F (base : Str) : Nat → Str → List Nat
  | 0, _ => []
  | _ + 1, [] => []
  | fuel + 1, c :: cs =>
    match matchWild base (c :: cs) with
    | some ('.' :: rest) =>
      let ds := rest.takeWhile Char.isDigit
      if ds = [] then scanUsed4F base fuel cs
      else parseDec ds :: scanUsed4F base fuel (rest.dropWhile Char.isDigit)
    | _ => scanUsed4F base fuel cs

/-- All last octets already used under `base` in the configuration text. -/
def scanUsed4 (base cs : Str) : List Nat := scanUsed4F base cs.length cs

/-- One scan step for the IPv6 pattern `QuoteMeta(base)::([\da-fA-F]+)`:
the base is quoted, hence matched literally; the captured hex run is parsed
with the `x` verb. -/
def scanUsed6F (base : Str) : Nat → Str → List Nat
  | 0, _ => []
  | _ + 1, [] => []
  | fuel + 1, c :: cs =>
    match stripPrefixChars base (c :: cs) with
    | some (':' :: ':' :: rest) =>
      let ds := rest.takeWhile isHexDigit
      if ds = [] then scanUsed6F base fuel cs
      else parseHex ds :: scanUsed6F base fuel (rest.dropWhile isHexDigit)
    | _ => scanUsed6F base fuel cs

/-- All host parts already used under `base::` in the configuration text. -/
def scanUsed6 (base cs : Str) : List Nat := scanUsed6F base cs.length cs

/-- The `/24` base of the server IPv4 address:
`fmt.Sprintf("%s.%s.%s", parts[0], parts[1], parts[2])`. -/
def ipv4Base (p : WGParams) : Str :=
  let parts := splitOnChar '.' p.ServerWGIPv4
  parts.getD 0 [] ++ '.' :: parts.getD 1 [] ++ '.' :: parts.getD 2 []

/-- Octets in use in the configuration text (`usedOctets` in the source). -/
def ipv4Used (p : WGParams) (config : Str) : List Nat :=
  scanUsed4 (ipv4Base p) config

/-- `getNextAvailableIPv4`: first free last octet in `[2,254]` under the
server IPv4 base, scanning the configuration text. -/
def getNextAvailableIPv4 (p : WGParams) (config : Str) : Except Str Str :=
  if (splitOnChar '.' p.ServerWGIPv4).length = 4 then
    match (List.range' 2 253).find? (fun i => !((ipv4Used p config).contains i)) with
    | some i => .ok (ipv4Base p ++ '.' :: natChars i)
    | none => .error "no available IPv4 addresses in the subnet".data
  else .error "invalid server IPv4 address format".data

/-- The base prefix of the server IPv6 address (first part of the split
on `::`). -/
def ipv6Base (p : WGParams) : Str :=
  (splitDC p.ServerWGIPv6).getD 0 []

/-- Host parts in use in the configuration text (`usedParts` in the source);
the pattern captures hex runs and parses them as hexadecimal. -/
def ipv6Used (p : WGParams) (config : Str) : List Nat :=
  scanUsed6 (ipv6Base p) config

/-- `getNextAvailableIPv6`: first free host number in `[2,254]` under the
server IPv6 base.  Note the asymmetry faithfully reproduced from the source:
occupied parts are parsed as hexadecimal, the result is rendered in decimal
(`fmt.Sprintf("%s::%d", baseIP, i)`). -/
def getNextAvailableIPv6 (p : WGParams) (config : Str) : Except Str Str :=
  if p.ServerWGIPv6 = [] then .ok []
  else if (splitDC p.ServerWGIPv6).length = 2 then
    match (List.range' 2 253).find? (fun i => !((ipv6Used p config).contains i)) with
    | some i => .ok (ipv6Base p ++ ':' :: ':' :: natChars i)
    | none => .error "no available IPv6 addresses in the subnet".data
  else .error "invalid server IPv6 address format".data

/-- Character class of the client-name pattern `[a-zA-Z0-9_-]`. -/
def isNameChar (c : Char) : Bool :=
  c.isAlpha || c.isDigit || c = '_' || c = '-'

/-- The name validation in `addUserHandlerGin`:
`regexp.MustCompile("^[a-zA-Z0-9_-]{1,15}$").MatchString(name)`. -/
def validName (n : Str) : Bool :=
  decide (1 ≤ n.length) && decide (n.length ≤ 15) && n.all isNameChar

/-- The peer-block marker line written and searched by the registry. -/
def clientMarker (n : Str) : Str := "### Client ".data ++ n

/-- Canonical (interface-prefixed) bundle file name. -/
def stdConf (nic n : Str) : Str := nic ++ "-client-".data ++ n ++ ".conf".data

/-- Legacy `wg0`-prefixed bundle file name. -/
def altConf (n : Str) : Str := "wg0-client-".data ++ n ++ ".conf".data

/-- Bare bundle file name. -/
def simpleConf (n : Str) : Str := n ++ ".conf".data

/-- `clientExists`: the three config checks compile `### Client <variant>$`
without the `m` flag, so each one tests whether the configuration text ends
with the marker; then the three candidate bundle files are probed. -/
def clientExists (p : WGParams) (st : FS) (name : Str) : Bool :=
  (clientMarker name).isSuffixOf st.config
  || (clientMarker ("wg0-client-".data ++ name)).isSuffixOf st.config
  || (clientMarker (p.ServerWGNIC ++ "-client-".data ++ name)).isSuffixOf st.config
  || (lookupFile (stdConf p.ServerWGNIC name) st.clients).isSome
  || (lookupFile (altConf name) st.clients).isSome
  || (lookupFile (simpleConf name) st.clients).isSome

/-- Advance to the first empty line of the list, keeping it (`^$` in the
block regex is zero-width: the empty line is not consumed by the match). -/
def dropToBlank : List Str → Option (List Str)
  | [] => none
  | l :: ls => if l = [] then some (l :: ls) else dropToBlank ls

/-- Strip a run of the pattern lines from the front of the line list:
`some rest` iff the list starts with exactly those lines. -/
def stripLinesPre : List Str → List Str → Option (List Str)
  | [], ls => some ls
  | _ :: _, [] => none
  | m :: ms, l :: ls => if l = m then stripLinesPre ms ls else none

/-- Line-level model of `(?ms)^<marker>$.*?^$` with `ReplaceAll`, for an
arbitrary marker literal.  `QuoteMeta` leaves a newline inside a client name
as a literal newline in the pattern, so the marker may span several lines:
`^M$` matches at line `i` iff the consecutive lines starting at `i` equal the
marker's line decomposition `mlInit ++ [mlLast]`.  The non-greedy `.*?^$`
then extends the match up to, excluding, the first empty line at or after
the last marker line: when `mlLast` is nonempty that is the first empty line
strictly afterwards, and when `mlLast` is itself empty (a marker ending in a
newline) that empty line qualifies at once, matching RE2's zero-width `^$`
immediately after the literal.  If no such empty line exists there is no
match starting here; the scan then advances one line (and indeed finds
nothing later, since a later match would need an empty line even further
right).  `ReplaceAll` removes every match, resuming at the empty line.
Fuel-based (each step consumes at least one line, so the line count
suffices). -/
def scanBF (mlInit : List Str) (mlLast : Str) : Nat → List Str → Bool × List Str
  | 0, ls => (false, ls)
  | _ + 1, [] => (false, [])
  | fuel + 1, l :: ls =>
    match stripLinesPre mlInit (l :: ls) with
    | some (l₂ :: rest) =>
      if l₂ = mlLast then
        match dropToBlank (l₂ :: rest) with
        | some rest₂ => (true, (scanBF mlInit mlLast fuel rest₂).2)
        | none =>
          let r := scanBF mlInit mlLast fuel ls
          (r.1, l :: r.2)
      else
        let r := scanBF mlInit mlLast fuel ls
        (r.1, l :: r.2)
    | _ =>
      let r := scanBF mlInit mlLast fuel ls
      (r.1, l :: r.2)

/-- `Match` plus `ReplaceAll` of the block regex on the configuration text. -/
def removeClientBlocks (marker : Str) (config : Str) : Bool × Str :=
  let ml := splitOnChar '\n' marker
  let ls := splitOnChar '\n' config
  let r := scanBF ml.dropLast (ml.getLastD []) ls.length ls
  (r.1, joinChar '\n' r.2)

/-- The client bundle text (`clientConfig` format string in
`addWireGuardClient`), including the bracket handling for IPv6 endpoints. -/
def clientConfigText (p : WGParams) (priv psk ipv4 ipv6 : Str) : Str :=
  let ep := if p.ServerPubIP.contains ':' && !(p.ServerPubIP.contains '[')
    then '[' :: p.ServerPubIP ++ "]".data else p.ServerPubIP
  let endpoint := ep ++ ':' :: p.ServerPort
  "[Interface]\nPrivateKey = ".data ++ priv
  ++ "\nAddress = ".data ++ ipv4 ++ "/32,".data ++ ipv6
  ++ "/128\nDNS = ".data ++ p.ClientDNS1 ++ ",".data ++ p.ClientDNS2
  ++ "\n\n[Peer]\nPublicKey = ".data ++ p.ServerPubKey
  ++ "\nPresharedKey = ".data ++ psk ++ "\nEndpoint = ".data ++ endpoint
  ++ "\nAllowedIPs = ".data ++ p.AllowedIPs ++ "\n".data

/-- The peer block appended to the server configuration file
(`serverConfigUpdate` format string in `addWireGuardClient`). -/
def serverConfigUpdate (name pub psk ipv4 ipv6 : Str) : Str :=
  "\n### Client ".data ++ name
  ++ "\n[Peer]\nPublicKey = ".data ++ pub
  ++ "\nPresharedKey = ".data ++ psk
  ++ "\nAllowedIPs = ".data ++ ipv4 ++ "/32,".data ++ ipv6 ++ "/128\n".data

/-- `addWireGuardClient`: refuse if the canonical bundle file already exists;
otherwise write the bundle file, append the peer block to the server
configuration, then run the daemon sync.  A sync failure is reported but the
two writes stay in place (the final state is the mutated one either way). -/
def addWireGuardClient (p : WGParams) (priv pub psk : Str) (syncRes : Except Str Unit)
    (st : FS) (name ipv4 ipv6 : Str) : Except Str Str × FS :=
  let configPath := stdConf p.ServerWGNIC name
  if (lookupFile configPath st.clients).isSome then
    (.error "client configuration file already exists".data, st)
  else
    let bundle := clientConfigText p priv psk ipv4 ipv6
    let st₁ : FS := ⟨st.config ++ serverConfigUpdate name pub psk ipv4 ipv6,
                     setFile configPath bundle st.clients⟩
    match syncRes with
    | .ok _ => (.ok bundle, st₁)
    | .error e => (.error ("failed to sync WireGuard config: ".data ++ e), st₁)

/-- `deleteWireGuardClient`: remove the peer block matching the first of the
three name variants whose regex matches the configuration text, remove every
candidate bundle file, then run the daemon sync. -/
def deleteWireGuardClient (p : WGParams) (syncRes : Except Str Unit) (st : FS)
    (name : Str) : Except Str Unit × FS :=
  let r₁ := removeClientBlocks (clientMarker name) st.config
  let config₁ :=
    if r₁.1 then r₁.2
    else
      let r₂ := removeClientBlocks (clientMarker ("wg0-client-".data ++ name)) st.config
      if r₂.1 then r₂.2
      else
        let r₃ := removeClientBlocks
          (clientMarker (p.ServerWGNIC ++ "-client-".data ++ name)) st.config
        if r₃.1 then r₃.2 else st.config
  let clients₁ := removeFile (simpleConf name)
    (removeFile (altConf name) (removeFile (stdConf p.ServerWGNIC name) st.clients))
  match syncRes with
  | .ok _ => (.ok (), ⟨config₁, clients₁⟩)
  | .error e => (.error ("failed to sync WireGuard config: ".data ++ e), ⟨config₁, clients₁⟩)

/-- Go `unicode.IsSpace` restricted to the Latin-1 range. -/
def isGoSpace (c : Char) : Bool :=
  c = ' ' || c = '\t' || c = '\n' || c = '\x0b' || c = '\x0c' || c = '\r'
  || c = '\u0085' || c = '\u00A0'

/-- `strings.TrimSpace`. -/
def trimSpace (l : Str) : Str :=
  ((l.dropWhile isGoSpace).reverse.dropWhile isGoSpace).reverse

/-- `strings.Trim(value, "\"'")`: strip quote characters from both ends. -/
def trimQuotes (l : Str) : Str :=
  let isQ : Char → Bool := fun c => c = '"' || c = '\''
  ((l.dropWhile isQ).reverse.dropWhile isQ).reverse

/-- `bufio.ScanLines` drops one trailing carriage return per line. -/
def dropCR (l : Str) : Str :=
  if l.getLast? = some '\r' then l.dropLast else l

/-- The sequence of lines a `bufio.Scanner` yields for the file content:
split on newline, no empty final token for a trailing newline, strip one
trailing carriage return per line. -/
def goLines (content : Str) : List Str :=
  let ps := splitOnChar '\n' content
  (if ps.getLast? = some [] then ps.dropLast else ps).map dropCR

/-- `strings.SplitN(line, "=", 2)` restricted to the information the loader
uses: split at the first equals sign, or report that none exists. -/
def splitEq : Str → Option (Str × Str)
  | [] => none
  | c :: r =>
    if c = '=' then some ([], r)
    else (splitEq r).map (fun ab => (c :: ab.1, ab.2))

/-- One line of the params loader loop: lines without an equals sign are
ignored; otherwise the trimmed key maps to the trimmed, unquoted value. -/
def processLine (m : List (Str × Str)) (line : Str) : List (Str × Str) :=
  match splitEq line with
  | some kv => setFile (trimSpace kv.1) (trimQuotes (trimSpace kv.2)) m
  | none => m

/-- The `params` map accumulated by `loadWGParams`. -/
def paramsMap (content : Str) : List (Str × Str) :=
  (goLines content).foldl processLine []

/-- Go map read with the zero value for missing keys. -/
def getParam (m : List (Str × Str)) (k : Str) : Str := (lookupFile k m).getD []

/-- The `WGParams` literal built from the params map. -/
def mkWGParams (m : List (Str × Str)) : WGParams where
  ServerPubIP := getParam m "SERVER_PUB_IP".data
  ServerPubNIC := getParam m "SERVER_PUB_NIC".data
  ServerWGNIC := getParam m "SERVER_WG_NIC".data
  ServerWGIPv4 := getParam m "SERVER_WG_IPV4".data
  ServerWGIPv6 := getParam m "SERVER_WG_IPV6".data
  ServerPort := getParam m "SERVER_PORT".data
  ServerPrivKey := getParam m "SERVER_PRIV_KEY".data
  ServerPubKey := getParam m "SERVER_PUB_KEY".data
  ClientDNS1 := getParam m "CLIENT_DNS_1".data
  ClientDNS2 := getParam m "CLIENT_DNS_2".data
  AllowedIPs := getParam m "ALLOWED_IPS".data

/-- The required-field check at the end of `loadWGParams`. -/
def requiredMissing (q : WGParams) : Bool :=
  q.ServerPubIP = [] || q.ServerWGNIC = [] || q.ServerPubKey = []
  || q.ServerPort = [] || q.ServerWGIPv4 = []

/-- The five required fields of the loaded parameters, as a proposition. -/
def requiredFieldMissing (q : WGParams) : Prop :=
  q.ServerPubIP = [] ∨ q.ServerWGNIC = [] ∨ q.ServerPubKey = []
  ∨ q.ServerPort = [] ∨ q.ServerWGIPv4 = []

/-- `loadWGParams` on the content of the params file. -/
def loadWGParams (content : Str) : Except Str WGParams :=
  let q := mkWGParams (paramsMap content)
  if requiredMissing q then .error "required WireGuard parameters missing".data
  else .ok q

/-- A client record as listed by the API (`Client` in the source). -/
structure ClientR where
  name : Str
  ipv4 : Str
  ipv6 : Str
  config : Str
  deriving DecidableEq, Repr

/-- `^<pre>(.+)\.conf$` applied to a file name: strip the prefix and the
`.conf` extension, requiring a nonempty captured stem. -/
def matchConfName (pre f : Str) : Option Str :=
  match stripPrefixChars pre f with
  | some r =>
    match stripSuffixChars ".conf".data r with
    | some x => if x = [] then none else some x
    | none => none
  | none => none

/-- `^(.+)\.conf$` applied to a file name. -/
def matchSimpleName (f : Str) : Option Str :=
  match stripSuffixChars ".conf".data f with
  | some x => if x = [] then none else some x
  | none => none

/-- The logical client name derived from a bundle file name, trying the
interface-prefixed, `wg0`-prefixed and bare patterns in this order. -/
def deriveName (nic f : Str) : Option Str :=
  match matchConfName (nic ++ "-client-".data) f with
  | some x => some x
  | none =>
    match matchConfName "wg0-client-".data f with
    | some x => some x
    | none => matchSimpleName f

/-- `strings.Contains`: some suffix of `l` starts with `pat`. -/
def containsSub (pat : Str) : Str → Bool
  | [] => (stripPrefixChars pat []).isSome
  | c :: cs => (stripPrefixChars pat (c :: cs)).isSome || containsSub pat cs

/-- First line of the bundle that, after trimming, starts with
`Address = `; returns the rest of that line. -/
def findAddressLine : List Str → Option Str
  | [] => none
  | l :: ls =>
    match stripPrefixChars "Address = ".data (trimSpace l) with
    | some r => some r
    | none => findAddressLine ls

/-- Best-effort address extraction from a bundle body (`listWireGuardClients`):
only bundles containing `[Interface]` are scanned; the first and second
comma-separated tokens of the address line yield IPv4 and IPv6 when they
contain a `/`. -/
def extractAddrs (cfg : Str) : Str × Str :=
  if containsSub "[Interface]".data cfg then
    match findAddressLine (splitOnChar '\n' cfg) with
    | some rest =>
      let addrs := splitOnChar ',' rest
      let a0 := addrs.getD 0 []
      let ip4 := if a0.contains '/' then (splitOnChar '/' a0).getD 0 [] else []
      let ip6 :=
        match addrs.getD 1 [] with
        | [] => []
        | a1 => if a1.contains '/' then (splitOnChar '/' a1).getD 0 [] else []
      (ip4, ip6)
    | none => ([], [])
  else ([], [])

/-- A client record built from a bundle file. -/
def mkClientR (n content : Str) : ClientR :=
  ⟨n, (extractAddrs content).1, (extractAddrs content).2, content⟩

/-- One directory entry of the `listWireGuardClients` loop: a file whose
name matches one of the three patterns contributes a record under its derived
logical name (later entries replace earlier ones with the same name). -/
def listStep (nic : Str) (acc : List (Str × ClientR)) (kv : Str × Str) :
    List (Str × ClientR) :=
  match deriveName nic kv.1 with
  | some n => setFile n (mkClientR n kv.2) acc
  | none => acc

/-- The `clientMap` accumulated by `listWireGuardClients`. -/
def listMapF (p : WGParams) (files : List (Str × Str)) : List (Str × ClientR) :=
  files.foldl (listStep p.ServerWGNIC) []

/-- `listWireGuardClients`: the records of the client map (the Go map
iteration order is unspecified; membership is what the API guarantees). -/
def listWireGuardClients (p : WGParams) (st : FS) : List ClientR :=
  (listMapF p st.clients).map (fun kv => kv.2)

/-- Error kinds the handlers map to transport status codes. -/
inductive ApiErr where
  | validation
  | conflict
  | notFound
  | internalE (msg : Str)
  deriving DecidableEq, Repr

/-- `addUserHandlerGin` past JSON binding (`AddClient` in the spec):
validate the name, check existence across both stores, auto-assign missing
addresses, then create the client.  Returns the assigned addresses and the
bundle on success, together with the resulting store state. -/
def addClient (p : WGParams) (priv pub psk : Str) (syncRes : Except Str Unit)
    (st : FS) (name ipv4 ipv6 : Str) : Except ApiErr (Str × Str × Str) × FS :=
  if validName name then
    if clientExists p st name then (.error .conflict, st)
    else
      match (if ipv4 = [] then getNextAvailableIPv4 p st.config else .ok ipv4) with
      | .error e => (.error (.internalE e), st)
      | .ok a4 =>
        match (if ipv6 = [] then
                 (if p.ServerWGIPv6 = [] then Except.ok ipv6
                  else getNextAvailableIPv6 p st.config)
               else Except.ok ipv6) with
        | .error e => (.error (.internalE e), st)
        | .ok a6 =>
          match addWireGuardClient p priv pub psk syncRes st name a4 a6 with
          | (.ok bundle, st₁) => (.ok (a4, a6, bundle), st₁)
          | (.error e, st₁) => (.error (.internalE e), st₁)
  else (.error .validation, st)

/-- `deleteUserHandlerGin` past JSON binding (`DeleteClient` in the spec):
not-found short-circuits before any mutation. -/
def deleteClient (p : WGParams) (syncRes : Except Str Unit) (st : FS)
    (name : Str) : Except ApiErr Unit × FS :=
  if clientExists p st name then
    match deleteWireGuardClient p syncRes st name with
    | (.ok _, st₁) => (.ok (), st₁)
    | (.error e, st₁) => (.error (.internalE e), st₁)
  else (.error .notFound, st)

/-! ## Concrete inputs used by witnesses and counterexamples -/

/-- A representative parameter set (IPv6 enabled). -/
def pW : WGParams :=
  { ServerPubIP := "1.2.3.4".data, ServerPubNIC := "eth0".data, ServerWGNIC := "wg0".data,
    ServerWGIPv4 := "10.8.0.1".data, ServerWGIPv6 := "fd00::1".data,
    ServerPort := "51820".data, ServerPrivKey := "SPRIV".data, ServerPubKey := "SPUB".data,
    ClientDNS1 := "1.1.1.1".data, ClientDNS2 := "8.8.8.8".data,
    AllowedIPs := "0.0.0.0/0,::/0".data }

/-- The same parameter set with IPv6 disabled. -/
def pW4 : WGParams := { pW with ServerWGIPv6 := [] }

/-- The same parameter set with `wg1` as the configured interface name. -/
def pWg1 : WGParams := { pW with ServerWGNIC := "wg1".data }

/-- A configuration text with one allocated IPv4 peer address. -/
def cfgW : Str := "### old\n[Peer]\nAllowedIPs = 10.8.0.2/32\n".data

/-- A configuration text whose IPv6 host parts 2..9 (hex) are taken and which
contains the literal address `fd00::10` (hex host 16). -/
def cfg6W : Str :=
  "fd00::2 fd00::3 fd00::4 fd00::5 fd00::6 fd00::7 fd00::8 fd00::9 fd00::10".data

/-- A store whose configuration ends with a bare `### Client bob` marker with
no trailing newline and no terminating blank line, and with no bundle files. -/
def stBob : FS := ⟨"### Client bob".data, []⟩

/-- A store whose configuration contains (but does not end with) a
`### Client alice` header, with no bundle files. -/
def stAliceHdr : FS := ⟨"### Client alice\n[Peer]\nPublicKey = X\n".data, []⟩

/-- A store with one legacy-named bundle file for `alice`. -/
def stAliceWg0 : FS := ⟨"[Interface]\n".data, [("wg0-client-alice.conf".data, "C".data)]⟩

/-- A starting store for the round-trip claims. -/
def stPre : FS := ⟨"[Interface]\nListenPort = 51820\n".data, []⟩

/-- A well-formed params file content (with quoting, whitespace, and a
malformed line). -/
def paramsW : Str :=
  "SERVER_PUB_IP=1.2.3.4\nSERVER_WG_NIC= wg0 \nSERVER_PUB_KEY='abc'\nSERVER_PORT=\"51820\"\nSERVER_WG_IPV4=10.8.0.1\nno equals line\n".data

/-! ## Association list lemmas -/

theorem lookupFile_setFile_self {α : Type} (k : Str) (v : α) (m : List (Str × α)) :
    lookupFile k (setFile k v m) = some v := by
  simp [lookupFile, setFile]

theorem lookupFile_removeFile_self {α : Type} (k : Str) (m : List (Str × α)) :
    lookupFile k (removeFile k m) = none := by
  induction m with
  | nil => rfl
  | cons kv m ih =>
    rcases kv with ⟨k₁, v⟩
    by_cases h : k₁ = k
    · simpa [removeFile, h] using ih
    · simpa [removeFile, h, lookupFile] using ih

theorem lookupFile_removeFile_none {α : Type} (k j : Str) (m : List (Str × α))
    (h : lookupFile k m = none) : lookupFile k (removeFile j m) = none := by
  induction m with
  | nil => rfl
  | cons kv m ih =>
    rcases kv with ⟨k₁, v⟩
    simp only [lookupFile] at h
    by_cases hk : k₁ = k
    · simp [hk] at h
    · simp only [hk, if_false] at h
      by_cases hj : k₁ = j
      · simpa [removeFile, hj] using ih h
      · simpa [removeFile, hj, lookupFile, hk] using ih h

theorem removeFile_eq_of_lookup_none {α : Type} (k : Str) (m : List (Str × α))
    (h : lookupFile k m = none) : removeFile k m = m := by
  induction m with
  | nil => rfl
  | cons kv m ih =>
    rcases kv with ⟨k₁, v⟩
    simp only [lookupFile] at h
    by_cases hk : k₁ = k
    · simp [hk] at h
    · simp only [hk, if_false] at h
      simp [removeFile, hk, ih h]

theorem lookupFile_isSome_of_mem {α : Type} {k : Str} {v : α} {m : List (Str × α)}
    (h : (k, v) ∈ m) : (lookupFile k m).isSome = true := by
  induction m with
  | nil => simp at h
  | cons kv m ih =>
    rcases kv with ⟨k₁, v₁⟩
    rcases List.mem_cons.1 h with h₁ | h₁
    · cases h₁
      simp [lookupFile]
    · by_cases hk : k₁ = k
      · simp [lookupFile, hk]
      · simpa [lookupFile, hk] using ih h₁

theorem mem_of_lookupFile_some {α : Type} {k : Str} {v : α} {m : List (Str × α)}
    (h : lookupFile k m = some v) : (k, v) ∈ m := by
  induction m with
  | nil => simp [lookupFile] at h
  | cons kv m ih =>
    rcases kv with ⟨k₁, v₁⟩
    simp only [lookupFile] at h
    by_cases hk : k₁ = k
    · simp only [hk, if_pos rfl] at h
      cases h
      simp [hk]
    · simp only [hk, if_false] at h
      exact List.mem_cons_of_mem _ (ih h)

/-! ## Prefix and suffix stripping lemmas -/

theorem stripPrefixChars_append (p r : Str) : stripPrefixChars p (p ++ r) = some r := by
  induction p with
  | nil => rfl
  | cons c p ih => simp [stripPrefixChars, ih]

theorem stripPrefixChars_eq_some {p l r : Str} (h : stripPrefixChars p l = some r) :
    l = p ++ r := by
  induction p generalizing l with
  | nil =>
    simp only [stripPrefixChars, Option.some.injEq] at h
    simpa using h
  | cons c p ih =>
    cases l with
    | nil => simp [stripPrefixChars] at h
    | cons c₁ l =>
      by_cases hc : c₁ = c
      · subst hc
        simp only [stripPrefixChars, if_pos rfl] at h
        simpa using ih h
      · simp [stripPrefixChars, hc] at h

theorem stripSuffixChars_append (s r : Str) : stripSuffixChars s (r ++ s) = some r := by
  simp [stripSuffixChars, List.reverse_append, stripPrefixChars_append]

theorem stripSuffixChars_eq_some {s l r : Str} (h : stripSuffixChars s l = some r) :
    l = r ++ s := by
  simp only [stripSuffixChars, Option.map_eq_some'] at h
  obtain ⟨x, hx, hr⟩ := h
  have hrev := stripPrefixChars_eq_some hx
  subst hr
  have h₂ : l.reverse.reverse = (s.reverse ++ x).reverse := by rw [hrev]
  simpa [List.reverse_append] using h₂

/-! ## `find?` over `range'` -/

theorem find?_range'_eq_some {q : Nat → Bool} {a n m : Nat}
    (h : (List.range' a n).find? q = some m) :
    q m = true ∧ a ≤ m ∧ m < a + n ∧ ∀ j, a ≤ j → j < m → q j = false := by
  induction n generalizing a with
  | zero => simp [List.range'] at h
  | succ n ih =>
    rw [show List.range' a (n + 1) = a :: List.range' (a + 1) n by simp [List.range']] at h
    rw [List.find?_cons] at h
    cases hqa : q a with
    | true =>
      rw [hqa] at h
      simp only [Option.some.injEq] at h
      subst h
      exact ⟨hqa, Nat.le_refl _, by omega, fun j h₁ h₂ => absurd h₁ (by omega)⟩
    | false =>
      rw [hqa] at h
      obtain ⟨hq, hm₁, hm₂, hmin⟩ := ih h
      refine ⟨hq, by omega, by omega, fun j hj₁ hj₂ => ?_⟩
      rcases Nat.eq_or_lt_of_le hj₁ with hj | hj
      · simpa [← hj] using hqa
      · exact hmin j hj hj₂

theorem find?_range'_eq_none {q : Nat → Bool} {a n : Nat}
    (h : (List.range' a n).find? q = none) :
    ∀ j, a ≤ j → j < a + n → q j = false := by
  induction n generalizing a with
  | zero => omega
  | succ n ih =>
    rw [show List.range' a (n + 1) = a :: List.range' (a + 1) n by simp [List.range']] at h
    rw [List.find?_cons] at h
    cases hqa : q a with
    | true => simp [hqa] at h
    | false =>
      rw [hqa] at h
      intro j hj₁ hj₂
      rcases Nat.eq_or_lt_of_le hj₁ with hj | hj
      · simpa [← hj] using hqa
      · exact ih h j hj (by omega)

/-! ## Claim C1: IPv4 allocation -/

/-- C1: for every configuration text whose set `S` of already-used last
octets of the form `<base>.<octet>` satisfies `S ⊆ [2,254]`,
`getNextAvailableIPv4` returns the base joined with `min([2,254] \ S)`
(characterized as: a member of `[2,254]` outside `S` that bounds every such
number from below); when every integer in `[2,254]` is used it returns the
pool-exhausted error instead of an address. -/
theorem c1_getNextAvailableIPv4_spec (p : WGParams) (config : Str)
    (h4 : (splitOnChar '.' p.ServerWGIPv4).length = 4)
    (hS : ∀ x ∈ ipv4Used p config, 2 ≤ x ∧ x ≤ 254) :
    ((∃ i, 2 ≤ i ∧ i ≤ 254 ∧ i ∉ ipv4Used p config) →
      ∃ m, getNextAvailableIPv4 p config = .ok (ipv4Base p ++ '.' :: natChars m) ∧
        2 ≤ m ∧ m ≤ 254 ∧ m ∉ ipv4Used p config ∧
        ∀ j, 2 ≤ j → j ≤ 254 → j ∉ ipv4Used p config → m ≤ j) ∧
    ((∀ i, 2 ≤ i → i ≤ 254 → i ∈ ipv4Used p config) →
      getNextAvailableIPv4 p config
        = .error "no available IPv4 addresses in the subnet".data) := by
  constructor
  · rintro ⟨i, hi2, hi254, hni⟩
    rcases hfind : (List.range' 2 253).find?
        (fun i => !((ipv4Used p config).contains i)) with _ | m
    · exfalso
      have hq := find?_range'_eq_none hfind i hi2 (by omega)
      simp only [Bool.not_eq_false'] at hq
      exact hni (by simpa using hq)
    · obtain ⟨hq, h2m, hm255, hmin⟩ := find?_range'_eq_some hfind
      simp only [Bool.not_eq_true'] at hq
      refine ⟨m, ?_, h2m, by omega, ?_, ?_⟩
      · unfold getNextAvailableIPv4
        rw [if_pos h4, hfind]
      · intro hmem
        rw [show (ipv4Used p config).contains m = true by simpa using hmem] at hq
        cases hq
      · intro j hj2 hj254 hjn
        by_contra hlt
        push_neg at hlt
        have hjq := hmin j hj2 (by omega)
        simp only [Bool.not_eq_false'] at hjq
        exact hjn (by simpa using hjq)
  · intro hall
    rcases hfind : (List.range' 2 253).find?
        (fun i => !((ipv4Used p config).contains i)) with _ | m
    · unfold getNextAvailableIPv4
      rw [if_pos h4, hfind]
    · obtain ⟨hq, h2m, hm255, _⟩ := find?_range'_eq_some hfind
      exfalso
      simp only [Bool.not_eq_true'] at hq
      rw [show (ipv4Used p config).contains m = true by
        simpa using hall m h2m (by omega)] at hq
      cases hq

/-- Witness for C1 at a concrete configuration: octet 2 is taken, so the
allocator returns `10.8.0.3`. -/
theorem c1_witness :
    ∃ m, getNextAvailableIPv4 pW cfgW = .ok (ipv4Base pW ++ '.' :: natChars m) ∧
      2 ≤ m ∧ m ≤ 254 ∧ m ∉ ipv4Used pW cfgW ∧
      ∀ j, 2 ≤ j → j ≤ 254 → j ∉ ipv4Used pW cfgW → m ≤ j :=
  (c1_getNextAvailableIPv4_spec pW cfgW (by decide) (by decide)).1
    ⟨3, by decide, by decide, by decide⟩

/-! ## Claim C6: IPv6 allocation -/

/-- Counterexample to C6: the allocator parses occupied host parts as
hexadecimal but renders its result in decimal, so the returned address can
already occur verbatim in the configuration text.  With hosts 2..9 taken and
the literal `fd00::10` present (which parses as hex 16), the allocator picks
host number 10 and returns the string `fd00::10` — an address that already
occurs in the text, contradicting the claim. -/
theorem c6_counterexample :
    getNextAvailableIPv6 pW cfg6W = .ok "fd00::10".data ∧
    containsSub "fd00::10".data cfg6W = true := by
  constructor <;> decide

/-- C6 (amended): `getNextAvailableIPv6` is structurally identical to the
IPv4 allocator over the `<base>::<hex>` pattern at the level of host
*numbers*: it returns the base joined by `::` with the decimal rendering of
the smallest number in `[2,254]` that is not among the hex-parsed host parts
occurring in the text, and the pool-exhausted error when all are taken; the
result is deterministic.  However, because occupied parts are parsed as
hexadecimal while the result is rendered in decimal, the returned string may
textually coincide with an address already occurring in the text (see the
counterexample); only the parsed host number is guaranteed fresh. -/
theorem c6_getNextAvailableIPv6_amended (p : WGParams) (config : Str)
    (h6 : p.ServerWGIPv6 ≠ [])
    (h2 : (splitDC p.ServerWGIPv6).length = 2) :
    ((∃ i, 2 ≤ i ∧ i ≤ 254 ∧ i ∉ ipv6Used p config) →
      ∃ m, getNextAvailableIPv6 p config
          = .ok (ipv6Base p ++ ':' :: ':' :: natChars m) ∧
        2 ≤ m ∧ m ≤ 254 ∧ m ∉ ipv6Used p config ∧
        ∀ j, 2 ≤ j → j ≤ 254 → j ∉ ipv6Used p config → m ≤ j) ∧
    ((∀ i, 2 ≤ i → i ≤ 254 → i ∈ ipv6Used p config) →
      getNextAvailableIPv6 p config
        = .error "no available IPv6 addresses in the subnet".data) := by
  constructor
  · rintro ⟨i, hi2, hi254, hni⟩
    rcases hfind : (List.range' 2 253).find?
        (fun i => !((ipv6Used p config).contains i)) with _ | m
    · exfalso
      have hq := find?_range'_eq_none hfind i hi2 (by omega)
      simp only [Bool.not_eq_false'] at hq
      exact hni (by simpa using hq)
    · obtain ⟨hq, h2m, hm255, hmin⟩ := find?_range'_eq_some hfind
      simp only [Bool.not_eq_true'] at hq
      refine ⟨m, ?_, h2m, by omega, ?_, ?_⟩
      · unfold getNextAvailableIPv6
        rw [if_neg h6, if_pos h2, hfind]
      · intro hmem
        rw [show (ipv6Used p config).contains m = true by simpa using hmem] at hq
        cases hq
      · intro j hj2 hj254 hjn
        by_contra hlt
        push_neg at hlt
        have hjq := hmin j hj2 (by omega)
        simp only [Bool.not_eq_false'] at hjq
        exact hjn (by simpa using hjq)
  · intro hall
    rcases hfind : (List.range' 2 253).find?
        (fun i => !((ipv6Used p config).contains i)) with _ | m
    · unfold getNextAvailableIPv6
      rw [if_neg h6, if_pos h2, hfind]
    · obtain ⟨hq, h2m, hm255, _⟩ := find?_range'_eq_some hfind
      exfalso
      simp only [Bool.not_eq_true'] at hq
      rw [show (ipv6Used p config).contains m = true by
        simpa using hall m h2m (by omega)] at hq
      cases hq

/-- Witness for the amended C6 at the counterexample configuration: the
chosen host number 10 is indeed outside the hex-parsed occupied set
`{2,...,9,16}` and minimal. -/
theorem c6_witness :
    ∃ m, getNextAvailableIPv6 pW cfg6W
        = .ok (ipv6Base pW ++ ':' :: ':' :: natChars m) ∧
      2 ≤ m ∧ m ≤ 254 ∧ m ∉ ipv6Used pW cfg6W ∧
      ∀ j, 2 ≤ j → j ≤ 254 → j ∉ ipv6Used pW cfg6W → m ≤ j :=
  (c6_getNextAvailableIPv6_amended pW cfg6W (by decide) (by decide)).1
    ⟨10, by decide, by decide, by decide⟩

/-! ## Claim C7: name validation -/

/-- C7: `AddClient` accepts a name exactly when it matches
`^[a-zA-Z0-9_-]{1,15}$` (1 to 15 characters from letters, digits,
underscore, dash — which is the definition of `validName`): `ok_name-1` is
accepted, while `bad name`, `toolongname1234567` and the empty string are
rejected; and for every rejected name the handler returns the validation
error with the store untouched, for every store and every oracle — so the
rejection happens before any read or write of either store. -/
theorem c7_name_validation :
    validName "ok_name-1".data = true ∧
    validName "bad name".data = false ∧
    validName "toolongname1234567".data = false ∧
    validName ([] : Str) = false ∧
    ∀ (p : WGParams) (priv pub psk : Str) (syncRes : Except Str Unit)
      (st : FS) (n ipv4 ipv6 : Str), validName n = false →
      addClient p priv pub psk syncRes st n ipv4 ipv6 = (.error .validation, st) := by
  refine ⟨by decide, by decide, by decide, by decide, ?_⟩
  intro p priv pub psk syncRes st n ipv4 ipv6 h
  simp [addClient, h]

/-- Witness for C7: the rejected name `bad name` leaves a nonempty store
untouched and yields the validation error. -/
theorem c7_witness :
    addClient pW "PRIV".data "PUB".data "PSK".data (.ok ()) stPre
      "bad name".data [] [] = (.error .validation, stPre) :=
  c7_name_validation.2.2.2.2 pW "PRIV".data "PUB".data "PSK".data (.ok ()) stPre
    "bad name".data [] [] (by decide)

/-! ## Claim C8: failed sync does not roll back -/

/-- C8: when the daemon-sync step at the end of `addWireGuardClient` fails,
the bundle file written to the client directory and the peer block appended
to the server configuration file are not retracted — the final state holds
exactly the appended configuration and the written bundle — and the
operation reports the sync step's error. -/
theorem c8_sync_failure_keeps_writes (p : WGParams) (priv pub psk e : Str)
    (st : FS) (name ipv4 ipv6 : Str)
    (habsent : lookupFile (stdConf p.ServerWGNIC name) st.clients = none) :
    addWireGuardClient p priv pub psk (.error e) st name ipv4 ipv6
      = (.error ("failed to sync WireGuard config: ".data ++ e),
         ⟨st.config ++ serverConfigUpdate name pub psk ipv4 ipv6,
          setFile (stdConf p.ServerWGNIC name)
            (clientConfigText p priv psk ipv4 ipv6) st.clients⟩) ∧
    lookupFile (stdConf p.ServerWGNIC name)
        (addWireGuardClient p priv pub psk (.error e) st name ipv4 ipv6).2.clients
      = some (clientConfigText p priv psk ipv4 ipv6) := by
  have h₁ : addWireGuardClient p priv pub psk (.error e) st name ipv4 ipv6
      = (.error ("failed to sync WireGuard config: ".data ++ e),
         ⟨st.config ++ serverConfigUpdate name pub psk ipv4 ipv6,
          setFile (stdConf p.ServerWGNIC name)
            (clientConfigText p priv psk ipv4 ipv6) st.clients⟩) := by
    simp [addWireGuardClient, habsent]
  refine ⟨h₁, ?_⟩
  rw [h₁]
  exact lookupFile_setFile_self _ _ _

/-- Witness for C8: a concrete failed sync after adding `carol` to the
pre-populated store. -/
theorem c8_witness :
    lookupFile (stdConf pW.ServerWGNIC "carol".data) stPre.clients = none ∧
    addWireGuardClient pW "PRIV".data "PUB".data "PSK".data (.error "boom".data)
        stPre "carol".data "10.8.0.2".data "fd00::2".data
      = (.error ("failed to sync WireGuard config: ".data ++ "boom".data),
         ⟨stPre.config ++ serverConfigUpdate "carol".data "PUB".data "PSK".data
            "10.8.0.2".data "fd00::2".data,
          setFile (stdConf pW.ServerWGNIC "carol".data)
            (clientConfigText pW "PRIV".data "PSK".data "10.8.0.2".data "fd00::2".data)
            stPre.clients⟩) :=
  ⟨by decide,
   (c8_sync_failure_keeps_writes pW "PRIV".data "PUB".data "PSK".data "boom".data
      stPre "carol".data "10.8.0.2".data "fd00::2".data (by decide)).1⟩

/-! ## Claim C10: bundle paths stay inside the client directory -/

/-- C10: every name accepted by the validation pattern contains no path
separator and no dot, and consequently each of the three bundle file names
constructed by add, delete, list and the existence check is a single path
component (no `/` anywhere, given an interface name without `/`), so joining
it to the client directory addresses a direct child of that directory. -/
theorem c10_paths_are_direct_children (n : Str) (hn : validName n = true) :
    '/' ∉ n ∧ '.' ∉ n ∧
    ∀ nic : Str, '/' ∉ nic →
      '/' ∉ stdConf nic n ∧ '/' ∉ altConf n ∧ '/' ∉ simpleConf n := by
  have hall : ∀ c ∈ n, isNameChar c = true := by
    simp only [validName, Bool.and_eq_true, List.all_eq_true] at hn
    exact hn.2
  have hslash : '/' ∉ n := fun h => by cases hall '/' h
  have hdot : '.' ∉ n := fun h => by cases hall '.' h
  refine ⟨hslash, hdot, fun nic hnic => ⟨?_, ?_, ?_⟩⟩
  · intro h
    simp only [stdConf, List.mem_append] at h
    rcases h with ((h | h) | h) | h
    · exact hnic h
    · exact absurd h (by decide)
    · exact hslash h
    · exact absurd h (by decide)
  · intro h
    simp only [altConf, List.mem_append] at h
    rcases h with (h | h) | h
    · exact absurd h (by decide)
    · exact hslash h
    · exact absurd h (by decide)
  · intro h
    simp only [simpleConf, List.mem_append] at h
    rcases h with h | h
    · exact hslash h
    · exact absurd h (by decide)

/-- Witness for C10 at the accepted name `ok_name-1` and interface `wg0`. -/
theorem c10_witness :
    '/' ∉ "ok_name-1".data ∧ '.' ∉ "ok_name-1".data ∧
    '/' ∉ stdConf "wg0".data "ok_name-1".data ∧
    '/' ∉ altConf "ok_name-1".data ∧ '/' ∉ simpleConf "ok_name-1".data :=
  ⟨(c10_paths_are_direct_children "ok_name-1".data (by decide)).1,
   (c10_paths_are_direct_children "ok_name-1".data (by decide)).2.1,
   (c10_paths_are_direct_children "ok_name-1".data (by decide)).2.2 "wg0".data (by decide)⟩

/-! ## Claim C9: parameter loader -/

theorem requiredMissing_iff (q : WGParams) :
    requiredMissing q = true ↔ requiredFieldMissing q := by
  simp only [requiredMissing, requiredFieldMissing, Bool.or_eq_true, decide_eq_true_eq]
  tauto

theorem splitEq_none_of_no_eq {l : Str} (h : '=' ∉ l) : splitEq l = none := by
  induction l with
  | nil => rfl
  | cons c l ih =>
    have hc : c ≠ '=' := fun hc => h (hc ▸ List.mem_cons_self c l)
    have hl : '=' ∉ l := fun hl => h (List.mem_cons_of_mem c hl)
    simp [splitEq, hc, ih hl]

theorem splitEq_append {k : Str} (v : Str) (h : '=' ∉ k) :
    splitEq (k ++ '=' :: v) = some (k, v) := by
  induction k with
  | nil => simp [splitEq]
  | cons c k ih =>
    have hc : c ≠ '=' := fun hc => h (hc ▸ List.mem_cons_self c k)
    have hk : '=' ∉ k := fun hk => h (List.mem_cons_of_mem c hk)
    simp [splitEq, hc, ih hk]

/-- C9: the parameter loader parses the line-oriented KEY=VALUE file by
ignoring lines without `=`, trimming surrounding whitespace, and stripping
surrounding quote characters from values, and it returns the configuration
error precisely when at least one of the five required fields — public IP,
VPN interface name, server public key, port, IPv4 base — is empty after
parsing; on success the loaded parameters are the parsed map with all five
fields non-empty. -/
theorem c9_loadWGParams_spec (content : Str) :
    (loadWGParams content = .error "required WireGuard parameters missing".data ↔
      requiredFieldMissing (mkWGParams (paramsMap content))) ∧
    (∀ q, loadWGParams content = .ok q →
      q = mkWGParams (paramsMap content) ∧
      q.ServerPubIP ≠ [] ∧ q.ServerWGNIC ≠ [] ∧ q.ServerPubKey ≠ [] ∧
      q.ServerPort ≠ [] ∧ q.ServerWGIPv4 ≠ []) ∧
    (∀ (m : List (Str × Str)) (line : Str), '=' ∉ line → processLine m line = m) ∧
    (∀ (m : List (Str × Str)) (k v : Str), '=' ∉ k →
      processLine m (k ++ '=' :: v)
        = setFile (trimSpace k) (trimQuotes (trimSpace v)) m) := by
  refine ⟨?_, ?_, ?_, ?_⟩
  · rw [← requiredMissing_iff]
    unfold loadWGParams
    cases hrm : requiredMissing (mkWGParams (paramsMap content)) with
    | true => simp [hrm]
    | false => simp [hrm]
  · intro q hq
    unfold loadWGParams at hq
    cases hrm : requiredMissing (mkWGParams (paramsMap content)) with
    | true => exact absurd hq (by simp [hrm])
    | false =>
      rw [if_neg (by simp [hrm])] at hq
      rw [Except.ok.injEq] at hq
      subst hq
      have hrm' : ¬ requiredFieldMissing (mkWGParams (paramsMap content)) := by
        rw [← requiredMissing_iff, hrm]
        simp
      unfold requiredFieldMissing at hrm'
      push_neg at hrm'
      exact ⟨rfl, hrm'.1, hrm'.2.1, hrm'.2.2.1, hrm'.2.2.2.1, hrm'.2.2.2.2⟩
  · intro m line h
    simp [processLine, splitEq_none_of_no_eq h]
  · intro m k v h
    simp [processLine, splitEq_append v h]

/-- Witness for C9: a well-formed params file loads successfully with all
required fields populated (quotes stripped, whitespace trimmed), and a
line without `=` is ignored. -/
theorem c9_witness :
    (mkWGParams (paramsMap paramsW) = mkWGParams (paramsMap paramsW) ∧
     (mkWGParams (paramsMap paramsW)).ServerPubIP ≠ [] ∧
     (mkWGParams (paramsMap paramsW)).ServerWGNIC ≠ [] ∧
     (mkWGParams (paramsMap paramsW)).ServerPubKey ≠ [] ∧
     (mkWGParams (paramsMap paramsW)).ServerPort ≠ [] ∧
     (mkWGParams (paramsMap paramsW)).ServerWGIPv4 ≠ []) ∧
    processLine [] "no equals here".data = [] :=
  ⟨(c9_loadWGParams_spec paramsW).2.1 (mkWGParams (paramsMap paramsW)) (by decide),
   (c9_loadWGParams_spec paramsW).2.2.1 [] "no equals here".data (by decide)⟩

/-! ## Claim C5: the existence check -/

/-- Counterexample to C5: the claim says the check returns true when the
configuration text *contains* a peer-block header `### Client X`.  The three
header regexes are compiled without the multiline flag, so `$` matches only
at end of text: a configuration that contains the header `### Client alice`
followed by its peer stanza (hence not at end of text) yields `false` from
`clientExists`, with no bundle files present. -/
theorem c5_counterexample :
    containsSub (clientMarker "alice".data) stAliceHdr.config = true ∧
    clientExists pW stAliceHdr "alice".data = false := by
  constructor <;> decide

/-- C5 (amended): the existence check returns true iff the server
configuration text *ends with* (rather than contains) `### Client X` where
`X` is the bare name, `wg0-client-<name>`, or
`<configured-interface>-client-<name>`, or a bundle file exists at one of the
three candidate paths; in particular a bundle stored as
`wg0-client-alice.conf` makes logical name `alice` exist even when the
configured interface is `wg1` (second conjunct, for arbitrary parameters). -/
theorem c5_clientExists_amended (p : WGParams) (st : FS) (name : Str) :
    (clientExists p st name = true ↔
      ((clientMarker name).isSuffixOf st.config = true ∨
       (clientMarker ("wg0-client-".data ++ name)).isSuffixOf st.config = true ∨
       (clientMarker (p.ServerWGNIC ++ "-client-".data ++ name)).isSuffixOf
         st.config = true ∨
       (lookupFile (stdConf p.ServerWGNIC name) st.clients).isSome = true ∨
       (lookupFile (altConf name) st.clients).isSome = true ∨
       (lookupFile (simpleConf name) st.clients).isSome = true)) ∧
    ((lookupFile (altConf "alice".data) st.clients).isSome = true →
      clientExists p st "alice".data = true) := by
  constructor
  · simp only [clientExists, Bool.or_eq_true, List.isSuffixOf_iff_suffix]
    tauto
  · intro h
    simp [clientExists, h]

/-- Witness for the amended C5: the legacy bundle `wg0-client-alice.conf`
makes `alice` exist under the configured interface `wg1`. -/
theorem c5_witness : clientExists pWg1 stAliceWg0 "alice".data = true :=
  (c5_clientExists_amended pWg1 stAliceWg0 "alice".data).2 (by decide)

/-! ## Claim C2: add, list, conflict -/

theorem isSome_false_eq_none {α : Type} {o : Option α} (h : o.isSome = false) :
    o = none := by
  cases o with
  | none => rfl
  | some v => simp at h

theorem lookupFile_removeFile_ne {α : Type} {n m : Str} (hm : m ≠ n)
    (acc : List (Str × α)) :
    lookupFile n (removeFile m acc) = lookupFile n acc := by
  induction acc with
  | nil => rfl
  | cons kv acc ih =>
    rcases kv with ⟨k₁, v⟩
    show lookupFile n (if k₁ = m then removeFile m acc else (k₁, v) :: removeFile m acc)
        = if k₁ = n then some v else lookupFile n acc
    by_cases hk : k₁ = m
    · rw [if_pos hk, if_neg (show k₁ ≠ n by rw [hk]; exact hm)]
      exact ih
    · rw [if_neg hk]
      show (if k₁ = n then some v else lookupFile n (removeFile m acc)) = _
      by_cases hkn : k₁ = n
      · rw [if_pos hkn, if_pos hkn]
      · rw [if_neg hkn, if_neg hkn]
        exact ih

theorem mem_of_mem_removeFile {α : Type} {kv : Str × α} {k : Str}
    {m : List (Str × α)} (h : kv ∈ removeFile k m) : kv ∈ m := by
  induction m with
  | nil => exact absurd h (by simp [removeFile])
  | cons kv₁ m ih =>
    rcases kv₁ with ⟨k₁, v₁⟩
    by_cases hk : k₁ = k
    · simp only [removeFile, hk, if_pos rfl] at h
      exact List.mem_cons_of_mem _ (ih h)
    · simp only [removeFile, hk, if_false] at h
      rcases List.mem_cons.1 h with h₁ | h₁
      · exact h₁ ▸ List.mem_cons_self _ _
      · exact List.mem_cons_of_mem _ (ih h₁)

theorem matchConfName_eq_some {pre f x : Str} (h : matchConfName pre f = some x) :
    f = pre ++ x ++ ".conf".data ∧ x ≠ [] := by
  unfold matchConfName at h
  cases hp : stripPrefixChars pre f with
  | none => simp only [hp] at h; cases h
  | some r =>
    simp only [hp] at h
    cases hs : stripSuffixChars ".conf".data r with
    | none => simp only [hs] at h; cases h
    | some y =>
      simp only [hs] at h
      by_cases hy : y = []
      · simp only [if_pos hy] at h; cases h
      · simp only [if_neg hy, Option.some.injEq] at h
        subst h
        have h₁ := stripPrefixChars_eq_some hp
        have h₂ := stripSuffixChars_eq_some hs
        subst h₂
        exact ⟨by rw [h₁, List.append_assoc], hy⟩

theorem matchSimpleName_eq_some {f x : Str} (h : matchSimpleName f = some x) :
    f = x ++ ".conf".data ∧ x ≠ [] := by
  unfold matchSimpleName at h
  cases hs : stripSuffixChars ".conf".data f with
  | none => simp only [hs] at h; cases h
  | some y =>
    simp only [hs] at h
    by_cases hy : y = []
    · simp only [if_pos hy] at h; cases h
    · simp only [if_neg hy, Option.some.injEq] at h
      subst h
      exact ⟨stripSuffixChars_eq_some hs, hy⟩

/-- Inverse derivation: a file name deriving logical name `x` is one of the
three candidate bundle names for `x`. -/
theorem deriveName_eq_some {nic f x : Str} (h : deriveName nic f = some x) :
    f = stdConf nic x ∨ f = altConf x ∨ f = simpleConf x := by
  unfold deriveName at h
  cases h₁ : matchConfName (nic ++ "-client-".data) f with
  | some y =>
    simp only [h₁, Option.some.injEq] at h
    subst h
    obtain ⟨hf, -⟩ := matchConfName_eq_some h₁
    left
    rw [hf]
    simp [stdConf, List.append_assoc]
  | none =>
    simp only [h₁] at h
    cases h₂ : matchConfName "wg0-client-".data f with
    | some y =>
      simp only [h₂, Option.some.injEq] at h
      subst h
      obtain ⟨hf, -⟩ := matchConfName_eq_some h₂
      right; left
      rw [hf]
      simp [altConf, List.append_assoc]
    | none =>
      simp only [h₂] at h
      obtain ⟨hf, -⟩ := matchSimpleName_eq_some h
      right; right
      rw [hf]
      simp [simpleConf]

/-- The file written by the add operation derives back to the client name. -/
theorem deriveName_stdConf (nic n : Str) (hn : n ≠ []) :
    deriveName nic (stdConf nic n) = some n := by
  unfold deriveName
  have h₁ : matchConfName (nic ++ "-client-".data) (stdConf nic n) = some n := by
    unfold matchConfName stdConf
    rw [show nic ++ "-client-".data ++ n ++ ".conf".data
        = (nic ++ "-client-".data) ++ (n ++ ".conf".data) by
      simp [List.append_assoc]]
    simp only [stripPrefixChars_append, stripSuffixChars_append, if_neg hn]
  simp only [h₁]

theorem mem_removeFile_key_ne {α : Type} {kv : Str × α} {k : Str}
    {m : List (Str × α)} (h : kv ∈ removeFile k m) : kv.1 ≠ k := by
  induction m with
  | nil => exact absurd h (by simp [removeFile])
  | cons kv₁ m ih =>
    rcases kv₁ with ⟨k₁, v₁⟩
    by_cases hk : k₁ = k
    · simp only [removeFile, hk, if_pos rfl] at h
      exact ih h
    · simp only [removeFile, hk, if_false] at h
      rcases List.mem_cons.1 h with h₁ | h₁
      · rw [h₁]
        exact hk
      · exact ih h₁

theorem foldl_listStep_preserve (nic : Str) (files : List (Str × Str))
    (acc : List (Str × ClientR)) (n : Str)
    (h : ∀ kv ∈ files, deriveName nic kv.1 ≠ some n) :
    lookupFile n (files.foldl (listStep nic) acc) = lookupFile n acc := by
  induction files generalizing acc with
  | nil => rfl
  | cons kv fs ih =>
    rw [List.foldl_cons]
    rw [ih (listStep nic acc kv) (fun kv₂ hkv => h kv₂ (List.mem_cons_of_mem _ hkv))]
    cases hd : deriveName nic kv.1 with
    | none => simp [listStep, hd]
    | some m =>
      have hm : m ≠ n := fun he => h kv (List.mem_cons_self _ _) (by rw [hd, he])
      simp only [listStep, hd]
      show (if m = n then some (mkClientR m kv.2)
            else lookupFile n (removeFile m acc)) = lookupFile n acc
      rw [if_neg hm]
      exact lookupFile_removeFile_ne hm acc

theorem clientConfigText_ne_nil (p : WGParams) (priv psk ipv4 ipv6 : Str) :
    clientConfigText p priv psk ipv4 ipv6 ≠ [] := by
  unfold clientConfigText
  simp only [List.append_assoc]
  intro h
  exact absurd (List.append_eq_nil.mp h).1 (by decide)

/-- C2: for every valid client name `N` not already present in either store
(and allocation succeeding as in the handler), `AddClient(N)` succeeds, a
subsequent `ListClients()` contains a record whose name is `N` and whose
bundle is the (non-empty) generated client configuration, and a second
`AddClient(N)` immediately afterwards returns the conflict error leaving the
store unchanged. -/
theorem c2_add_list_conflict (p : WGParams) (priv pub psk : Str) (st : FS)
    (N a4 a6 : Str)
    (hval : validName N = true)
    (hex : clientExists p st N = false)
    (ha4 : getNextAvailableIPv4 p st.config = .ok a4)
    (ha6 : (if p.ServerWGIPv6 = ([] : Str) then Except.ok ([] : Str)
            else getNextAvailableIPv6 p st.config) = .ok a6) :
    ∃ (st₁ : FS) (bundle : Str),
      addClient p priv pub psk (.ok ()) st N [] [] = (.ok (a4, a6, bundle), st₁) ∧
      bundle ≠ [] ∧
      (∃ r ∈ listWireGuardClients p st₁, r.name = N ∧ r.config = bundle) ∧
      (∀ (priv₂ pub₂ psk₂ : Str) (sync₂ : Except Str Unit),
        addClient p priv₂ pub₂ psk₂ sync₂ st₁ N [] []
          = (.error .conflict, st₁)) := by
  have hN : N ≠ [] := by
    intro h
    subst h
    exact absurd hval (by decide)
  have hex' := hex
  simp only [clientExists, Bool.or_eq_false_iff] at hex'
  obtain ⟨⟨⟨⟨⟨hm1, hm2⟩, hm3⟩, hstd⟩, halt⟩, hsimp⟩ := hex'
  have hstdN : lookupFile (stdConf p.ServerWGNIC N) st.clients = none :=
    isSome_false_eq_none hstd
  have haltN : lookupFile (altConf N) st.clients = none := isSome_false_eq_none halt
  have hsimpN : lookupFile (simpleConf N) st.clients = none := isSome_false_eq_none hsimp
  refine ⟨⟨st.config ++ serverConfigUpdate N pub psk a4 a6,
           setFile (stdConf p.ServerWGNIC N) (clientConfigText p priv psk a4 a6)
             st.clients⟩,
          clientConfigText p priv psk a4 a6, ?_, ?_, ?_, ?_⟩
  · have hadd : addWireGuardClient p priv pub psk (.ok ()) st N a4 a6
        = (.ok (clientConfigText p priv psk a4 a6),
           ⟨st.config ++ serverConfigUpdate N pub psk a4 a6,
            setFile (stdConf p.ServerWGNIC N) (clientConfigText p priv psk a4 a6)
              st.clients⟩) := by
      simp [addWireGuardClient, hstdN]
    simp only [addClient, hval, if_true, hex, Bool.false_eq_true, if_false,
      if_pos rfl, ha4, ha6, hadd]
  · exact clientConfigText_ne_nil p priv psk a4 a6
  · have hd : deriveName p.ServerWGNIC (stdConf p.ServerWGNIC N) = some N :=
      deriveName_stdConf _ _ hN
    have hrest : ∀ kv ∈ removeFile (stdConf p.ServerWGNIC N) st.clients,
        deriveName p.ServerWGNIC kv.1 ≠ some N := by
      intro kv hkv hder
      rcases deriveName_eq_some hder with hf | hf | hf
      · exact mem_removeFile_key_ne hkv (by rw [hf])
      · have hmem := mem_of_mem_removeFile hkv
        have hsome := lookupFile_isSome_of_mem
          (show (kv.1, kv.2) ∈ st.clients from hmem)
        rw [hf, haltN] at hsome
        cases hsome
      · have hmem := mem_of_mem_removeFile hkv
        have hsome := lookupFile_isSome_of_mem
          (show (kv.1, kv.2) ∈ st.clients from hmem)
        rw [hf, hsimpN] at hsome
        cases hsome
    have hlist : lookupFile N
        (listMapF p (setFile (stdConf p.ServerWGNIC N)
          (clientConfigText p priv psk a4 a6) st.clients))
        = some (mkClientR N (clientConfigText p priv psk a4 a6)) := by
      unfold listMapF setFile
      rw [List.foldl_cons]
      have hstep : listStep p.ServerWGNIC []
          ((stdConf p.ServerWGNIC N), clientConfigText p priv psk a4 a6)
          = [(N, mkClientR N (clientConfigText p priv psk a4 a6))] := by
        simp [listStep, hd, setFile, removeFile]
      rw [hstep]
      rw [foldl_listStep_preserve p.ServerWGNIC _ _ N hrest]
      simp [lookupFile]
    refine ⟨mkClientR N (clientConfigText p priv psk a4 a6), ?_, rfl, rfl⟩
    exact List.mem_map.2 ⟨_, mem_of_lookupFile_some hlist, rfl⟩
  · intro priv₂ pub₂ psk₂ sync₂
    have hex₁ : clientExists p
        ⟨st.config ++ serverConfigUpdate N pub psk a4 a6,
         setFile (stdConf p.ServerWGNIC N) (clientConfigText p priv psk a4 a6)
           st.clients⟩ N = true := by
      have hs := lookupFile_setFile_self (stdConf p.ServerWGNIC N)
        (clientConfigText p priv psk a4 a6) st.clients
      simp [clientExists, hs]
    simp [addClient, hval, hex₁]

/-- Witness for C2: adding `alice` to the pre-populated store (IPv6
disabled) succeeds with the auto-assigned address `10.8.0.2`, she is listed,
and a second add conflicts. -/
theorem c2_witness :
    ∃ (st₁ : FS) (bundle : Str),
      addClient pW4 "PRIV".data "PUB".data "PSK".data (.ok ()) stPre
          "alice".data [] []
        = (.ok ("10.8.0.2".data, [], bundle), st₁) ∧
      bundle ≠ [] ∧
      (∃ r ∈ listWireGuardClients pW4 st₁,
        r.name = "alice".data ∧ r.config = bundle) ∧
      (∀ (priv₂ pub₂ psk₂ : Str) (sync₂ : Except Str Unit),
        addClient pW4 priv₂ pub₂ psk₂ sync₂ st₁ "alice".data [] []
          = (.error .conflict, st₁)) :=
  c2_add_list_conflict pW4 "PRIV".data "PUB".data "PSK".data stPre "alice".data
    "10.8.0.2".data [] (by decide) (by decide) (by decide) (by decide)

/-! ## Lemmas on the line scanner used by block deletion (claims C3, C4) -/

theorem dropToBlank_none_of_no_blank {ls : List Str} (h : ∀ l ∈ ls, l ≠ []) :
    dropToBlank ls = none := by
  induction ls with
  | nil => rfl
  | cons l ls ih =>
    have hl : l ≠ [] := h l (List.mem_cons_self _ _)
    simp [dropToBlank, hl, ih (fun l₂ h₂ => h l₂ (List.mem_cons_of_mem _ h₂))]

theorem dropToBlank_append {body : List Str} (rest : List Str)
    (h : ∀ l ∈ body, l ≠ []) :
    dropToBlank (body ++ [] :: rest) = some ([] :: rest) := by
  induction body with
  | nil => simp [dropToBlank]
  | cons l body ih =>
    have hl : l ≠ [] := h l (List.mem_cons_self _ _)
    simp [dropToBlank, hl, ih (fun l₂ h₂ => h l₂ (List.mem_cons_of_mem _ h₂))]

theorem scanBF_no_marker (marker : Str) (fuel : Nat) {ls : List Str}
    (h : ∀ l ∈ ls, l ≠ marker) :
    scanBF [] marker fuel ls = (false, ls) := by
  induction fuel generalizing ls with
  | zero => rfl
  | succ f ih =>
    cases ls with
    | nil => rfl
    | cons l ls =>
      have hl : l ≠ marker := h l (List.mem_cons_self _ _)
      simp [scanBF, stripLinesPre, hl,
        ih (fun l₂ h₂ => h l₂ (List.mem_cons_of_mem _ h₂))]

theorem scanBF_skip (marker : Str) (fuel : Nat) {pre : List Str} (rest : List Str)
    (h : ∀ l ∈ pre, l ≠ marker) :
    scanBF [] marker (pre.length + fuel) (pre ++ rest)
      = ((scanBF [] marker fuel rest).1, pre ++ (scanBF [] marker fuel rest).2) := by
  induction pre with
  | nil => simp
  | cons l pre ih =>
    have hl : l ≠ marker := h l (List.mem_cons_self _ _)
    have hlen : (l :: pre).length + fuel = (pre.length + fuel) + 1 := by
      simp [List.length_cons]
      omega
    rw [hlen, List.cons_append]
    simp only [scanBF, stripLinesPre, if_neg hl]
    rw [ih (fun l₂ h₂ => h l₂ (List.mem_cons_of_mem _ h₂))]
    simp

theorem scanBF_match (marker : Str) (hm : marker ≠ [])
    (fuel : Nat) {body : List Str} (rest : List Str)
    (hbody : ∀ l ∈ body, l ≠ []) :
    scanBF [] marker (fuel + 1) (marker :: (body ++ [] :: rest))
      = (true, (scanBF [] marker fuel ([] :: rest)).2) := by
  have hd : dropToBlank (marker :: (body ++ [] :: rest)) = some ([] :: rest) := by
    simp only [dropToBlank, if_neg hm, dropToBlank_append rest hbody]
  simp only [scanBF, stripLinesPre, if_pos rfl, hd]
  simp

/-! ## Split and join lemmas -/

theorem splitOnChar_ne_nil (sep : Char) (l : Str) : splitOnChar sep l ≠ [] := by
  cases l with
  | nil => simp [splitOnChar]
  | cons c cs =>
    unfold splitOnChar
    cases h : splitOnChar sep cs with
    | nil => simp
    | cons a t => by_cases hc : c = sep <;> simp [hc]

theorem joinChar_splitOnChar (sep : Char) (l : Str) :
    joinChar sep (splitOnChar sep l) = l := by
  induction l with
  | nil => rfl
  | cons c cs ih =>
    unfold splitOnChar
    cases h : splitOnChar sep cs with
    | nil => exact absurd h (splitOnChar_ne_nil sep cs)
    | cons a t =>
      rw [h] at ih
      by_cases hc : c = sep
      · subst hc
        simpa [joinChar] using ih
      · cases t with
        | nil =>
          simp only [joinChar] at ih
          simp [joinChar, hc, ih]
        | cons b t' =>
          simp only [joinChar] at ih ⊢
          simp only [hc, if_false, ← ih]
          rfl

theorem splitOnChar_append_sep (sep : Char) (xs ys : Str) :
    splitOnChar sep (xs ++ sep :: ys) = splitOnChar sep xs ++ splitOnChar sep ys := by
  induction xs with
  | nil =>
    cases h : splitOnChar sep ys with
    | nil => exact absurd h (splitOnChar_ne_nil sep ys)
    | cons a t => simp [splitOnChar, h]
  | cons c xs ih =>
    cases hxs : splitOnChar sep xs with
    | nil => exact absurd hxs (splitOnChar_ne_nil sep xs)
    | cons a t =>
      by_cases hc : c = sep
      · simp [splitOnChar, ih, hxs, hc]
      · simp [splitOnChar, ih, hxs, hc]

theorem splitOnChar_no_sep {sep : Char} {xs : Str} (h : sep ∉ xs) :
    splitOnChar sep xs = [xs] := by
  induction xs with
  | nil => rfl
  | cons c cs ih =>
    have hc : c ≠ sep := fun he => h (he ▸ List.mem_cons_self _ _)
    have hcs : sep ∉ cs := fun he => h (List.mem_cons_of_mem _ he)
    simp [splitOnChar, ih hcs, hc]

theorem joinChar_append_nonempty (sep : Char) {A B : List Str}
    (hA : A ≠ []) (hB : B ≠ []) :
    joinChar sep (A ++ B) = joinChar sep A ++ sep :: joinChar sep B := by
  induction A with
  | nil => exact absurd rfl hA
  | cons a A ih =>
    cases A with
    | nil =>
      cases B with
      | nil => exact absurd rfl hB
      | cons b B' => simp [joinChar]
    | cons a₂ A₂ =>
      rw [show (a :: a₂ :: A₂) ++ B = a :: ((a₂ :: A₂) ++ B) from rfl]
      rw [show (a₂ :: A₂) ++ B = a₂ :: (A₂ ++ B) from rfl]
      rw [show joinChar sep (a :: a₂ :: (A₂ ++ B))
          = a ++ sep :: joinChar sep (a₂ :: (A₂ ++ B)) from rfl]
      rw [show (a₂ :: A₂) ++ B = a₂ :: (A₂ ++ B) from rfl] at ih
      rw [ih (by simp)]
      rw [show joinChar sep (a :: a₂ :: A₂) = a ++ sep :: joinChar sep (a₂ :: A₂) from rfl]
      simp [List.append_assoc]

theorem not_mem_append₂ {c : Char} {x y : Str} (hx : c ∉ x) (hy : c ∉ y) :
    c ∉ x ++ y :=
  fun h => (List.mem_append.1 h).elim hx hy

theorem removeClientBlocks_noop {marker cfg : Str} (hnl : '\n' ∉ marker)
    (h : marker ∉ splitOnChar '\n' cfg) :
    removeClientBlocks marker cfg = (false, cfg) := by
  show ((scanBF (splitOnChar '\n' marker).dropLast
          ((splitOnChar '\n' marker).getLastD [])
          (splitOnChar '\n' cfg).length (splitOnChar '\n' cfg)).1,
        joinChar '\n'
          (scanBF (splitOnChar '\n' marker).dropLast
            ((splitOnChar '\n' marker).getLastD [])
            (splitOnChar '\n' cfg).length (splitOnChar '\n' cfg)).2)
      = (false, cfg)
  rw [splitOnChar_no_sep hnl]
  rw [show ([marker] : List Str).dropLast = [] from rfl,
      show ([marker] : List Str).getLastD [] = marker from rfl]
  rw [scanBF_no_marker marker _ (fun l hl he => h (he ▸ hl))]
  simp [joinChar_splitOnChar]

theorem splitOnChar_append_update (cfg N pub psk a4 a6 : Str)
    (hN : '\n' ∉ N) (hpub : '\n' ∉ pub) (hpsk : '\n' ∉ psk)
    (h4 : '\n' ∉ a4) (h6 : '\n' ∉ a6) :
    splitOnChar '\n' (cfg ++ serverConfigUpdate N pub psk a4 a6)
      = splitOnChar '\n' cfg
        ++ [clientMarker N,
            "[Peer]".data,
            "PublicKey = ".data ++ pub,
            "PresharedKey = ".data ++ psk,
            "AllowedIPs = ".data ++ a4 ++ "/32,".data ++ a6 ++ "/128".data,
            []] := by
  have hform : cfg ++ serverConfigUpdate N pub psk a4 a6
      = cfg ++ '\n' :: (clientMarker N
        ++ '\n' :: ("[Peer]".data
        ++ '\n' :: (("PublicKey = ".data ++ pub)
        ++ '\n' :: (("PresharedKey = ".data ++ psk)
        ++ '\n' :: (("AllowedIPs = ".data ++ a4 ++ "/32,".data ++ a6 ++ "/128".data)
        ++ '\n' :: []))))) := by
    simp only [serverConfigUpdate, clientMarker, List.append_assoc, List.cons_append,
      List.nil_append]
  have hmM : '\n' ∉ clientMarker N := not_mem_append₂ (by decide) hN
  have hl1 : '\n' ∉ ("[Peer]".data : Str) := by decide
  have hl2 : '\n' ∉ "PublicKey = ".data ++ pub := not_mem_append₂ (by decide) hpub
  have hl3 : '\n' ∉ "PresharedKey = ".data ++ psk := not_mem_append₂ (by decide) hpsk
  have hl4 : '\n' ∉ "AllowedIPs = ".data ++ a4 ++ "/32,".data ++ a6 ++ "/128".data :=
    not_mem_append₂ (not_mem_append₂ (not_mem_append₂
      (not_mem_append₂ (by decide) h4) (by decide)) h6) (by decide)
  rw [hform, splitOnChar_append_sep]
  congr 1
  rw [splitOnChar_append_sep, splitOnChar_no_sep hmM]
  rw [splitOnChar_append_sep, splitOnChar_no_sep hl1]
  rw [splitOnChar_append_sep, splitOnChar_no_sep hl2]
  rw [splitOnChar_append_sep, splitOnChar_no_sep hl3]
  rw [splitOnChar_append_sep, splitOnChar_no_sep hl4]
  rfl

theorem removeClientBlocks_append_block (cfg N pub psk a4 a6 : Str)
    (hmark : clientMarker N ∉ splitOnChar '\n' cfg)
    (hN : '\n' ∉ N) (hpub : '\n' ∉ pub) (hpsk : '\n' ∉ psk)
    (h4 : '\n' ∉ a4) (h6 : '\n' ∉ a6) :
    removeClientBlocks (clientMarker N) (cfg ++ serverConfigUpdate N pub psk a4 a6)
      = (true, cfg ++ ['\n']) := by
  have hsp := splitOnChar_append_update cfg N pub psk a4 a6 hN hpub hpsk h4 h6
  have hmM : '\n' ∉ clientMarker N := not_mem_append₂ (by decide) hN
  show ((scanBF (splitOnChar '\n' (clientMarker N)).dropLast
          ((splitOnChar '\n' (clientMarker N)).getLastD [])
          (splitOnChar '\n' (cfg ++ serverConfigUpdate N pub psk a4 a6)).length
          (splitOnChar '\n' (cfg ++ serverConfigUpdate N pub psk a4 a6))).1,
        joinChar '\n'
          (scanBF (splitOnChar '\n' (clientMarker N)).dropLast
            ((splitOnChar '\n' (clientMarker N)).getLastD [])
            (splitOnChar '\n' (cfg ++ serverConfigUpdate N pub psk a4 a6)).length
            (splitOnChar '\n' (cfg ++ serverConfigUpdate N pub psk a4 a6))).2)
      = (true, cfg ++ ['\n'])
  rw [splitOnChar_no_sep hmM]
  rw [show ([clientMarker N] : List Str).dropLast = [] from rfl,
      show ([clientMarker N] : List Str).getLastD [] = clientMarker N from rfl]
  rw [hsp]
  rw [List.length_append]
  rw [show (([clientMarker N, "[Peer]".data, "PublicKey = ".data ++ pub,
      "PresharedKey = ".data ++ psk,
      "AllowedIPs = ".data ++ a4 ++ "/32,".data ++ a6 ++ "/128".data,
      []] : List Str)).length = 6 from rfl]
  rw [scanBF_skip (clientMarker N) 6 _ (fun l hl he => hmark (he ▸ hl))]
  rw [show ([clientMarker N, "[Peer]".data, "PublicKey = ".data ++ pub,
      "PresharedKey = ".data ++ psk,
      "AllowedIPs = ".data ++ a4 ++ "/32,".data ++ a6 ++ "/128".data,
      []] : List Str)
    = clientMarker N
      :: (["[Peer]".data, "PublicKey = ".data ++ pub, "PresharedKey = ".data ++ psk,
           "AllowedIPs = ".data ++ a4 ++ "/32,".data ++ a6 ++ "/128".data]
          ++ [] :: []) from rfl]
  rw [scanBF_match (clientMarker N) (by simp [clientMarker]) 5 []]
  · rw [scanBF_no_marker (clientMarker N) 5
      (by
        intro l hl he
        simp only [List.mem_singleton] at hl
        rw [hl] at he
        have : clientMarker N ≠ [] := by
          intro hc
          have := congrArg List.length hc
          simp [clientMarker] at this
        exact this he.symm)]
    rw [joinChar_append_nonempty '\n' (splitOnChar_ne_nil _ _) (by simp)]
    rw [joinChar_splitOnChar]
    rfl
  · intro l hl
    have hlen : ∀ (x y : Str), x ≠ [] → x ++ y ≠ [] := by
      intro x y hx hxy
      exact hx (List.append_eq_nil.mp hxy).1
    simp only [List.mem_cons, List.not_mem_nil, or_false] at hl
    rcases hl with hl | hl | hl | hl <;> subst hl
    · decide
    · exact hlen _ _ (by decide)
    · exact hlen _ _ (by decide)
    · exact hlen _ _ (hlen _ _ (hlen _ _ (hlen _ _ (by decide))))

/-! ## Claims C3 and C4: deletion -/

theorem deleteWireGuardClient_ok_parts (p : WGParams) (st : FS) (N : Str) :
    (deleteWireGuardClient p (.ok ()) st N).1 = .ok () ∧
    (deleteWireGuardClient p (.ok ()) st N).2.clients
      = removeFile (simpleConf N) (removeFile (altConf N)
          (removeFile (stdConf p.ServerWGNIC N) st.clients)) := by
  constructor <;> simp [deleteWireGuardClient]

theorem deleteClient_of_exists {p : WGParams} {st : FS} {N : Str}
    (hex : clientExists p st N = true) :
    deleteClient p (.ok ()) st N
      = (.ok (), (deleteWireGuardClient p (.ok ()) st N).2) := by
  have h1 := (deleteWireGuardClient_ok_parts p st N).1
  unfold deleteClient
  rw [if_pos hex]
  rcases hd : deleteWireGuardClient p (.ok ()) st N with ⟨r, st₂⟩
  rw [hd] at h1
  simp only at h1
  subst h1
  rfl

/-- Counterexample to C3: a configuration consisting of nothing but the bare
end-of-text marker `### Client bob` (no trailing newline).  The existence
check matches it (end-of-text `$`), so `bob` "exists"; but the deletion
regex, which requires a terminating empty line after the marker, matches
nothing, so the delete succeeds while leaving both stores untouched — and a
second delete again reports success instead of not-found, contradicting the
claim. -/
theorem c3_counterexample :
    clientExists pW stBob "bob".data = true ∧
    deleteClient pW (.ok ()) stBob "bob".data = (.ok (), stBob) ∧
    (deleteClient pW (.ok ())
        (deleteClient pW (.ok ()) stBob "bob".data).2 "bob".data).1
      ≠ .error ApiErr.notFound := by
  refine ⟨by decide, by decide, by decide⟩

/-- C3 (amended): deleting a non-existent client returns not-found and
leaves both stores unchanged; deleting an existing client always succeeds
and removes all recognized bundle-file naming variants; and, for a name and
configured interface containing no newline (so each marker variant is a
single line; the unvalidated delete route is the only way a newline could
enter a name), when the name's presence is via bundle files only — no
configuration line equals any of the three marker variants, and the text
does not end with one — the configuration file is left unchanged, the
client no longer exists, and a second delete returns not-found.  (When the
name exists solely via an end-of-text marker with no terminating blank
line, the delete leaves the configuration unchanged and a second delete
does not return not-found; see the counterexample.) -/
theorem c3_delete_amended (p : WGParams) (syncRes : Except Str Unit)
    (st : FS) (N : Str) :
    (clientExists p st N = false →
      deleteClient p syncRes st N = (.error .notFound, st)) ∧
    (clientExists p st N = true →
      (deleteClient p (.ok ()) st N).1 = .ok () ∧
      lookupFile (stdConf p.ServerWGNIC N)
        (deleteClient p (.ok ()) st N).2.clients = none ∧
      lookupFile (altConf N) (deleteClient p (.ok ()) st N).2.clients = none ∧
      lookupFile (simpleConf N) (deleteClient p (.ok ()) st N).2.clients = none) ∧
    (clientExists p st N = true →
      '\n' ∉ N →
      '\n' ∉ p.ServerWGNIC →
      clientMarker N ∉ splitOnChar '\n' st.config →
      clientMarker ("wg0-client-".data ++ N) ∉ splitOnChar '\n' st.config →
      clientMarker (p.ServerWGNIC ++ "-client-".data ++ N)
        ∉ splitOnChar '\n' st.config →
      (clientMarker N).isSuffixOf st.config = false →
      (clientMarker ("wg0-client-".data ++ N)).isSuffixOf st.config = false →
      (clientMarker (p.ServerWGNIC ++ "-client-".data ++ N)).isSuffixOf
        st.config = false →
      deleteClient p (.ok ()) st N
        = (.ok (), ⟨st.config,
            removeFile (simpleConf N) (removeFile (altConf N)
              (removeFile (stdConf p.ServerWGNIC N) st.clients))⟩) ∧
      clientExists p (deleteClient p (.ok ()) st N).2 N = false ∧
      deleteClient p (.ok ()) (deleteClient p (.ok ()) st N).2 N
        = (.error .notFound, (deleteClient p (.ok ()) st N).2)) := by
  refine ⟨?_, ?_, ?_⟩
  · intro hex
    simp [deleteClient, hex]
  · intro hex
    rw [deleteClient_of_exists hex]
    refine ⟨rfl, ?_, ?_, ?_⟩
    · rw [(deleteWireGuardClient_ok_parts p st N).2]
      exact lookupFile_removeFile_none _ _ _
        (lookupFile_removeFile_none _ _ _ (lookupFile_removeFile_self _ _))
    · rw [(deleteWireGuardClient_ok_parts p st N).2]
      exact lookupFile_removeFile_none _ _ _ (lookupFile_removeFile_self _ _)
    · rw [(deleteWireGuardClient_ok_parts p st N).2]
      exact lookupFile_removeFile_self _ _
  · intro hex hNn hnic hm1 hm2 hm3 hs1 hs2 hs3
    have hnl1 : '\n' ∉ clientMarker N := not_mem_append₂ (by decide) hNn
    have hnl2 : '\n' ∉ clientMarker ("wg0-client-".data ++ N) :=
      not_mem_append₂ (by decide) (not_mem_append₂ (by decide) hNn)
    have hnl3 : '\n' ∉ clientMarker (p.ServerWGNIC ++ "-client-".data ++ N) :=
      not_mem_append₂ (by decide)
        (not_mem_append₂ (not_mem_append₂ hnic (by decide)) hNn)
    have hn1 := removeClientBlocks_noop hnl1 hm1
    have hn2 := removeClientBlocks_noop hnl2 hm2
    have hn3 := removeClientBlocks_noop hnl3 hm3
    have hcfg : (deleteWireGuardClient p (.ok ()) st N).2.config = st.config := by
      simp only [deleteWireGuardClient]
      rw [hn1, hn2, hn3]
      simp
    have hst : (deleteWireGuardClient p (.ok ()) st N).2
        = ⟨st.config, removeFile (simpleConf N) (removeFile (altConf N)
            (removeFile (stdConf p.ServerWGNIC N) st.clients))⟩ := by
      rw [show (deleteWireGuardClient p (.ok ()) st N).2
          = ⟨(deleteWireGuardClient p (.ok ()) st N).2.config,
             (deleteWireGuardClient p (.ok ()) st N).2.clients⟩ from rfl]
      rw [hcfg, (deleteWireGuardClient_ok_parts p st N).2]
    have hdel : deleteClient p (.ok ()) st N
        = (.ok (), ⟨st.config, removeFile (simpleConf N) (removeFile (altConf N)
            (removeFile (stdConf p.ServerWGNIC N) st.clients))⟩) := by
      rw [deleteClient_of_exists hex, hst]
    have hex₂ : clientExists p (deleteClient p (.ok ()) st N).2 N = false := by
      rw [hdel]
      simp only [clientExists, hs1, hs2, hs3]
      rw [lookupFile_removeFile_none _ _ _
        (lookupFile_removeFile_none _ _ _ (lookupFile_removeFile_self _ _))]
      rw [lookupFile_removeFile_none _ _ _ (lookupFile_removeFile_self _ _)]
      rw [lookupFile_removeFile_self _ _]
      rfl
    refine ⟨hdel, hex₂, ?_⟩
    rw [hdel] at hex₂ ⊢
    simp only at hex₂ ⊢
    simp [deleteClient, hex₂]

/-- Witness for the amended C3 at a concrete store where `alice` exists only
through her legacy bundle file: delete succeeds, leaves the configuration
unchanged, removes the bundle, and a second delete reports not-found. -/
theorem c3_witness :
    deleteClient pW (.ok ()) stAliceWg0 "alice".data
      = (.ok (), ⟨stAliceWg0.config,
          removeFile (simpleConf "alice".data) (removeFile (altConf "alice".data)
            (removeFile (stdConf pW.ServerWGNIC "alice".data) stAliceWg0.clients))⟩) ∧
    clientExists pW (deleteClient pW (.ok ()) stAliceWg0 "alice".data).2
      "alice".data = false ∧
    deleteClient pW (.ok ())
        (deleteClient pW (.ok ()) stAliceWg0 "alice".data).2 "alice".data
      = (.error .notFound, (deleteClient pW (.ok ()) stAliceWg0 "alice".data).2) :=
  (c3_delete_amended pW (.ok ()) stAliceWg0 "alice".data).2.2 (by decide)
    (by decide) (by decide) (by decide) (by decide) (by decide) (by decide)
    (by decide) (by decide)

/-- Counterexample to C4: the round trip is *not* byte-identical.  The add
appends a block with a leading separator newline; the deletion regex match
begins at the marker line (after that newline) and consumes through the
block's final newline, so the separator newline survives: the resulting file
is the pre-add content plus one extra newline. -/
theorem c4_counterexample :
    (addClient pW "PRIV".data "PUB".data "PSK".data (.ok ()) stPre
        "vpnclient1".data "10.8.0.5".data "fd00::5".data).1.isOk = true ∧
    (deleteClient pW (.ok ())
        (addClient pW "PRIV".data "PUB".data "PSK".data (.ok ()) stPre
          "vpnclient1".data "10.8.0.5".data "fd00::5".data).2
        "vpnclient1".data).1 = .ok () ∧
    (deleteClient pW (.ok ())
        (addClient pW "PRIV".data "PUB".data "PSK".data (.ok ()) stPre
          "vpnclient1".data "10.8.0.5".data "fd00::5".data).2
        "vpnclient1".data).2.config
      = stPre.config ++ "\n".data ∧
    (deleteClient pW (.ok ())
        (addClient pW "PRIV".data "PUB".data "PSK".data (.ok ()) stPre
          "vpnclient1".data "10.8.0.5".data "fd00::5".data).2
        "vpnclient1".data).2.config
      ≠ stPre.config := by
  refine ⟨by decide, by decide, by decide, by decide⟩

/-- C4 (amended): for every starting store in which `vpnclient1` does not
exist and whose configuration has no line equal to `### Client vpnclient1`,
`AddClient("vpnclient1", "10.8.0.5", "fd00::5")` followed by
`DeleteClient("vpnclient1")` restores the client directory exactly and
leaves the configuration file equal to its pre-add state plus a single
trailing newline: the delete removes exactly the appended span except the
separator newline the add prepended. -/
theorem c4_roundtrip_amended (p : WGParams) (priv pub psk : Str) (st : FS)
    (hex : clientExists p st "vpnclient1".data = false)
    (hmark : clientMarker "vpnclient1".data ∉ splitOnChar '\n' st.config)
    (hpub : '\n' ∉ pub) (hpsk : '\n' ∉ psk) :
    ∃ bundle,
      addClient p priv pub psk (.ok ()) st "vpnclient1".data
          "10.8.0.5".data "fd00::5".data
        = (.ok ("10.8.0.5".data, "fd00::5".data, bundle),
           ⟨st.config ++ serverConfigUpdate "vpnclient1".data pub psk
              "10.8.0.5".data "fd00::5".data,
            setFile (stdConf p.ServerWGNIC "vpnclient1".data) bundle st.clients⟩) ∧
      deleteClient p (.ok ())
          ⟨st.config ++ serverConfigUpdate "vpnclient1".data pub psk
             "10.8.0.5".data "fd00::5".data,
           setFile (stdConf p.ServerWGNIC "vpnclient1".data) bundle st.clients⟩
          "vpnclient1".data
        = (.ok (), ⟨st.config ++ ['\n'], st.clients⟩) := by
  have hex' := hex
  simp only [clientExists, Bool.or_eq_false_iff] at hex'
  obtain ⟨⟨⟨⟨⟨hm1, hm2⟩, hm3⟩, hstd⟩, halt⟩, hsimp⟩ := hex'
  have hstdN : lookupFile (stdConf p.ServerWGNIC "vpnclient1".data) st.clients = none :=
    isSome_false_eq_none hstd
  have haltN : lookupFile (altConf "vpnclient1".data) st.clients = none :=
    isSome_false_eq_none halt
  have hsimpN : lookupFile (simpleConf "vpnclient1".data) st.clients = none :=
    isSome_false_eq_none hsimp
  refine ⟨clientConfigText p priv psk "10.8.0.5".data "fd00::5".data, ?_, ?_⟩
  · have hadd : addWireGuardClient p priv pub psk (.ok ()) st "vpnclient1".data
        "10.8.0.5".data "fd00::5".data
        = (.ok (clientConfigText p priv psk "10.8.0.5".data "fd00::5".data),
           ⟨st.config ++ serverConfigUpdate "vpnclient1".data pub psk
              "10.8.0.5".data "fd00::5".data,
            setFile (stdConf p.ServerWGNIC "vpnclient1".data)
              (clientConfigText p priv psk "10.8.0.5".data "fd00::5".data)
              st.clients⟩) := by
      simp [addWireGuardClient, hstdN]
    simp only [addClient, hex, Bool.false_eq_true, if_false]
    rw [if_pos (by decide : validName "vpnclient1".data = true)]
    rw [if_neg (by decide : ¬ ("10.8.0.5".data : Str) = [])]
    rw [if_neg (by decide : ¬ ("fd00::5".data : Str) = [])]
    simp [hadd]
  · have hrem := removeClientBlocks_append_block st.config "vpnclient1".data pub psk
      "10.8.0.5".data "fd00::5".data hmark (by decide) hpub hpsk (by decide) (by decide)
    have hex₁ : clientExists p
        ⟨st.config ++ serverConfigUpdate "vpnclient1".data pub psk
           "10.8.0.5".data "fd00::5".data,
         setFile (stdConf p.ServerWGNIC "vpnclient1".data)
           (clientConfigText p priv psk "10.8.0.5".data "fd00::5".data)
           st.clients⟩ "vpnclient1".data = true := by
      have hs := lookupFile_setFile_self (stdConf p.ServerWGNIC "vpnclient1".data)
        (clientConfigText p priv psk "10.8.0.5".data "fd00::5".data) st.clients
      simp [clientExists, hs]
    rw [deleteClient_of_exists hex₁]
    have hcfg : (deleteWireGuardClient p (.ok ())
        ⟨st.config ++ serverConfigUpdate "vpnclient1".data pub psk
           "10.8.0.5".data "fd00::5".data,
         setFile (stdConf p.ServerWGNIC "vpnclient1".data)
           (clientConfigText p priv psk "10.8.0.5".data "fd00::5".data)
           st.clients⟩ "vpnclient1".data).2.config = st.config ++ ['\n'] := by
      simp only [deleteWireGuardClient]
      rw [hrem]
      simp
    have hcl : (deleteWireGuardClient p (.ok ())
        ⟨st.config ++ serverConfigUpdate "vpnclient1".data pub psk
           "10.8.0.5".data "fd00::5".data,
         setFile (stdConf p.ServerWGNIC "vpnclient1".data)
           (clientConfigText p priv psk "10.8.0.5".data "fd00::5".data)
           st.clients⟩ "vpnclient1".data).2.clients = st.clients := by
      rw [(deleteWireGuardClient_ok_parts p _ _).2]
      show removeFile (simpleConf "vpnclient1".data) (removeFile (altConf "vpnclient1".data)
        (removeFile (stdConf p.ServerWGNIC "vpnclient1".data)
          (setFile (stdConf p.ServerWGNIC "vpnclient1".data)
            (clientConfigText p priv psk "10.8.0.5".data "fd00::5".data)
            st.clients))) = st.clients
      rw [show removeFile (stdConf p.ServerWGNIC "vpnclient1".data)
          (setFile (stdConf p.ServerWGNIC "vpnclient1".data)
            (clientConfigText p priv psk "10.8.0.5".data "fd00::5".data)
            st.clients)
          = removeFile (stdConf p.ServerWGNIC "vpnclient1".data)
              (removeFile (stdConf p.ServerWGNIC "vpnclient1".data) st.clients) from by
        simp [setFile, removeFile]]
      rw [removeFile_eq_of_lookup_none _ _ (lookupFile_removeFile_self _ _)]
      rw [removeFile_eq_of_lookup_none _ _ hstdN]
      rw [removeFile_eq_of_lookup_none _ _ haltN]
      rw [removeFile_eq_of_lookup_none _ _ hsimpN]
    rw [show (deleteWireGuardClient p (.ok ())
        ⟨st.config ++ serverConfigUpdate "vpnclient1".data pub psk
           "10.8.0.5".data "fd00::5".data,
         setFile (stdConf p.ServerWGNIC "vpnclient1".data)
           (clientConfigText p priv psk "10.8.0.5".data "fd00::5".data)
           st.clients⟩ "vpnclient1".data).2
        = ⟨(deleteWireGuardClient p (.ok ())
            ⟨st.config ++ serverConfigUpdate "vpnclient1".data pub psk
               "10.8.0.5".data "fd00::5".data,
             setFile (stdConf p.ServerWGNIC "vpnclient1".data)
               (clientConfigText p priv psk "10.8.0.5".data "fd00::5".data)
               st.clients⟩ "vpnclient1".data).2.config,
           (deleteWireGuardClient p (.ok ())
            ⟨st.config ++ serverConfigUpdate "vpnclient1".data pub psk
               "10.8.0.5".data "fd00::5".data,
             setFile (stdConf p.ServerWGNIC "vpnclient1".data)
               (clientConfigText p priv psk "10.8.0.5".data "fd00::5".data)
               st.clients⟩ "vpnclient1".data).2.clients⟩ from rfl]
    rw [hcfg, hcl]

/-- Witness for the amended C4 at the concrete pre-populated store. -/
theorem c4_witness :
    ∃ bundle,
      addClient pW "PRIV".data "PUB".data "PSK".data (.ok ()) stPre
          "vpnclient1".data "10.8.0.5".data "fd00::5".data
        = (.ok ("10.8.0.5".data, "fd00::5".data, bundle),
           ⟨stPre.config ++ serverConfigUpdate "vpnclient1".data "PUB".data "PSK".data
              "10.8.0.5".data "fd00::5".data,
            setFile (stdConf pW.ServerWGNIC "vpnclient1".data) bundle stPre.clients⟩) ∧
      deleteClient pW (.ok ())
          ⟨stPre.config ++ serverConfigUpdate "vpnclient1".data "PUB".data "PSK".data
             "10.8.0.5".data "fd00::5".data,
           setFile (stdConf pW.ServerWGNIC "vpnclient1".data) bundle stPre.clients⟩
          "vpnclient1".data
        = (.ok (), ⟨stPre.config ++ ['\n'], stPre.clients⟩) :=
  c4_roundtrip_amended pW "PRIV".data "PUB".data "PSK".data stPre
    (by decide) (by decide) (by decide) (by decide)
